import Mathlib

/-
Verification of the provider-resolution core of the `atomic-di` library.

The embedding models the current `mockable`-based variant of the code
(src/provider.ts lines 128-262 and src/resolver.ts lines 38-156), the
mock registries (src/mocks.ts, src/mock-map.ts, src/readonly-map.ts),
scopes (src/scope.ts) and bulk resolution (src/collection-resolution.ts).

JavaScript runtime features are embedded as follows: objects live in an
explicit heap so that `Object.assign`'s in-place mutation is observable;
`Promise` values are modelled as pending values carrying the value they
settle to (the library never observes settle *timing*, only settledness,
via `instanceof Promise` checks and `Promise.all`); closure-local
singleton cells become a memo store indexed by provider identity;
`Map` scopes become association lists with `Map`'s replace-or-append
`set` semantics; reference identity of providers becomes a numeric id.
User-supplied resolvers are arbitrary functions over an abstract
external state and the heap, so all theorems quantify over every
possible resolver body.  Resolution is run with explicit fuel because a
mock registry may introduce cycles between providers; `none` means the
fuel ran out.
-/

set_option maxHeartbeats 1000000

namespace AtomicDi

/-- JS values used by the library: numeric/string primitives, references to
heap objects, pending (`Promise`) values that settle to their payload, and
`undefined`. -/
inductive Value where
  | num : Int → Value
  | str : String → Value
  | ref : Nat → Value
  | promise : Value → Value
  | undef : Value
deriving DecidableEq

/-- An associative JS object: a list of fields in insertion order. -/
abbrev Obj := List (String × Value)

/-- Field lookup `o[k]` on an object. -/
def getField (o : Obj) (k : String) : Option Value :=
  (o.find? (fun p => p.1 = k)).map (fun p => p.2)

/-- Property write `o[k] = v`: overwrites the existing field in place,
otherwise appends a new field (JS own-property assignment). -/
def setField : Obj → String → Value → Obj
  | [], k, v => [(k, v)]
  | p :: rest, k, v =>
    if p.1 = k then (k, v) :: rest else p :: setField rest k v

/-- The field update performed by `Object.assign(target, source)`: every
field of `source` is written onto `target` in order. -/
def assignFields (target source : Obj) : Obj :=
  source.foldl (fun acc p => setField acc p.1 p.2) target

/-- Whether a value is a pending (`instanceof Promise`) value. -/
def isPending : Value → Bool
  | .promise _ => true
  | _ => false

/-- The value a candidate settles to: the payload of a pending value, or the
value itself (`await v` on a non-promise is `v`). -/
def settle : Value → Value
  | .promise v => v
  | v => v

/-- A mock registry entry of `src/mocks.ts` (`Mock<T>`): a tag telling
whether the mock is partial, and the identity of the replacement provider.
The source field `isPartial` is embedded as `isPart`. -/
structure MockEntry where
  isPart : Bool
  provider : Nat
deriving DecidableEq

/-- The mock registry of `src/mocks.ts` (`createMocks`): a list of entries
from original-provider identity to mock descriptor. -/
structure Mocks where
  entries : List (Nat × MockEntry)
deriving DecidableEq

/-- Lookup of `createMocks` (src/mocks.ts line 48-50):
`entries.find((entry) => entry[0] === original)?.[1]`. -/
def Mocks.get (R : Mocks) (pid : Nat) : Option MockEntry :=
  (R.entries.find? (fun e => e.1 = pid)).map (fun e => e.2)

/-- The shared `set` helper of `createMocks` (src/mocks.ts lines 29-33):
drops any existing entry for the key and appends the new one. -/
def Mocks.set (R : Mocks) (k : Nat) (v : MockEntry) : Mocks :=
  ⟨R.entries.filter (fun e => ¬ e.1 = k) ++ [(k, v)]⟩

/-- `mock` registration of `createMocks` (src/mocks.ts lines 36-41). -/
def Mocks.mock (R : Mocks) (orig mk : Nat) : Mocks :=
  R.set orig ⟨false, mk⟩

/-- `mockPartially` registration of `createMocks`
(src/mocks.ts lines 42-47). -/
def Mocks.mockPartially (R : Mocks) (orig mk : Nat) : Mocks :=
  R.set orig ⟨true, mk⟩

/-- The mock map of `src/mock-map.ts`: entries from original provider
identity to replacement provider identity. -/
structure MockMap where
  entries : List (Nat × Nat)
deriving DecidableEq

/-- Lookup `map` of `createMockMap` (src/mock-map.ts lines 66-67): the first
matching entry's replacement, or the provider itself when absent. -/
def MockMap.map (M : MockMap) (p : Nat) : Nat :=
  ((M.entries.find? (fun e => e.1 = p)).map (fun e => e.2)).getD p

/-- Registration `add` of `createMockMap` (src/mock-map.ts lines 69-78).
The source first maps over the entries replacing the value under the key,
then appends the pair whenever the mapped array has the same length as the
original — which `Array.prototype.map` always guarantees, so the append
always happens; the guard is kept verbatim here. -/
def MockMap.add (M : MockMap) (p r : Nat) : MockMap :=
  let newEntries := M.entries.map (fun e => if e.1 = p then (e.1, r) else e)
  if newEntries.length = M.entries.length then ⟨newEntries ++ [(p, r)]⟩
  else ⟨newEntries⟩

/-- Merge `apply` of `createMockMap` (src/mock-map.ts lines 80-88): the
receiver's entries whose keys are absent from the other map, followed by all
of the other map's entries. -/
def MockMap.apply (M other : MockMap) : MockMap :=
  ⟨M.entries.filter
      (fun e => (other.entries.find? (fun oe => oe.1 = e.1)).isNone) ++
    other.entries⟩

/-- Lookup `get` of `createImmutableMap` (src/readonly-map.ts line 55):
first entry under the key. JS `=== undefined` absence checks correspond to
`Option.isNone` here (no stored value is `undefined`). -/
def imGet {K V : Type} [DecidableEq K] (m : List (K × V)) (k : K) :
    Option V :=
  (m.find? (fun e => e.1 = k)).map (fun e => e.2)

/-- Merge of `createImmutableMap` (src/readonly-map.ts lines 71-78): the
receiver's entries whose keys the other map does not define, followed by
all of the other map's entries. -/
def imMerge {K V : Type} [DecidableEq K] (m other : List (K × V)) :
    List (K × V) :=
  m.filter (fun e => (imGet other e.1).isNone) ++ other

/-- Resolution lifetime (src/provider.ts, `transient`/`singleton`/`scoped`
constructors). -/
inductive Lifetime where
  | transient : Lifetime
  | singleton : Lifetime
  | scoped : Lifetime
deriving DecidableEq

/-- A provider definition: its lifetime and its user-supplied resolver body.
The resolver is an arbitrary function over an external state `σ` and the
object heap, returning a value or a thrown error, so theorems below
quantify over every possible resolver. -/
structure PDef (σ : Type) where
  lifetime : Lifetime
  run : σ → List Obj → σ × List Obj × Except Value Value

/-- Pointwise update of a store indexed by `Nat`. -/
def upd {α : Type} (f : Nat → α) (i : Nat) (a : α) : Nat → α :=
  fun j => if j = i then a else f j

/-- The machine state threaded through a resolution: the resolvers'
external state, the object heap, the singleton memo cell of each provider
(`resolved`/`resolution` closure pair, `none` = not yet resolved), the
contents of every scope (`Map` from provider identity to value), and how
many times each provider's own resolver body has been invoked. -/
structure MState (σ : Type) where
  ext : σ
  heap : List Obj
  memo : Nat → Option Value
  scopes : Nat → List (Nat × Value)
  calls : Nat → Nat

/-- Lookup in a scope (`Map.prototype.has`/`get`, src/scope.ts). -/
def scopeGet (st : List (Nat × Value)) (pid : Nat) : Option Value :=
  (st.find? (fun e => e.1 = pid)).map (fun e => e.2)

/-- Write to a scope (`Map.prototype.set`): replaces the entry under the
key in place, otherwise appends. -/
def scopeSet : List (Nat × Value) → Nat → Value → List (Nat × Value)
  | [], pid, v => [(pid, v)]
  | e :: rest, pid, v =>
    if e.1 = pid then (pid, v) :: rest else e :: scopeSet rest pid v

/-- A resolution context (`ResolutionContext`, src/resolver.ts lines 29-32):
an optional scope (by store id) and an optional mock registry. -/
structure Ctx where
  scope : Option Nat
  mocks : Option Mocks

/-- The mock lookup `context?.mocks?.get(instance)` performed first on
every provider call (src/resolver.ts line 40). -/
def ctxMock (ctx : Ctx) (pid : Nat) : Option MockEntry :=
  match ctx.mocks with
  | none => none
  | some R => R.get pid

/-- Invocation of a provider's raw resolver body: runs the user function on
the external state and heap and counts the invocation. -/
def invoke {σ : Type} (d : PDef σ) (pid : Nat) (s : MState σ) :
    MState σ × Except Value Value :=
  match d.run s.ext s.heap with
  | (e, h, r) =>
    ({ s with
        ext := e
        heap := h
        calls := upd s.calls pid (s.calls pid + 1) }, r)

/-- The memoizing closure built by `singleton` (src/provider.ts lines
206-220, also `once` in src/helpers.ts): if the cell is filled, return the
remembered resolution without running the body; otherwise run the body and
fill the cell.  The `resolved` flag is set only after the body returns, so
a thrown error leaves the cell empty. -/
def memoResolve {σ : Type} (d : PDef σ) (pid : Nat) (s : MState σ) :
    MState σ × Except Value Value :=
  match s.memo pid with
  | some v => (s, .ok v)
  | none =>
    match invoke d pid s with
    | (s1, .ok v) => ({ s1 with memo := upd s1.memo pid (some v) }, .ok v)
    | (s1, .error e) => (s1, .error e)

/-- The lifetime path of a provider, i.e. the function handed to `mockable`
by each constructor: `transient` runs the body directly (src/provider.ts
line 188); `singleton` memoizes (lines 206-220); `scoped` uses the scope
from the context when present (`has`/`get`/`set`, lines 249-259) and
otherwise falls back to its private singleton (line 247; the fallback's own
mock lookup can never hit because the fallback closure is never exposed,
so it is embedded as the memo path). -/
def lifetimeResolve {σ : Type} (d : PDef σ) (pid : Nat) (ctx : Ctx)
    (s : MState σ) : MState σ × Except Value Value :=
  match d.lifetime with
  | .transient => invoke d pid s
  | .singleton => memoResolve d pid s
  | .scoped =>
    match ctx.scope with
    | none => memoResolve d pid s
    | some sid =>
      match scopeGet (s.scopes sid) pid with
      | some v =>
        ({ s with scopes := upd s.scopes sid (scopeSet (s.scopes sid) pid v) },
         .ok v)
      | none =>
        match invoke d pid s with
        | (s1, .ok v) =>
          ({ s1 with
             scopes := upd s1.scopes sid (scopeSet (s1.scopes sid) pid v) },
           .ok v)
        | (s1, .error e) => (s1, .error e)

/-- The JS object whose fields `Object.assign` copies from a source value:
the fields of the referenced heap object, or no fields for non-objects. -/
def fieldsOf {σ : Type} (s : MState σ) : Value → Obj
  | .ref i => s.heap.getD i []
  | _ => []

/-- `Object.assign(target, source)` (src/resolver.ts lines 50, 53): mutates
the heap object referenced by `target` in place, copying the source's
fields onto it, and returns the very same reference.  Behaviour is only
used by the library on associative (object) targets. -/
def objAssign {σ : Type} (s : MState σ) (target source : Value) :
    MState σ × Value :=
  match target with
  | .ref i =>
    ({ s with heap := s.heap.set i (assignFields (s.heap.getD i [])
        (fieldsOf s source)) }, .ref i)
  | v => (s, v)

/-- The partial-mock merge of `mockable` (src/resolver.ts lines 48-53): if
either candidate is pending, the merge is a pending value that settles to
`Object.assign(await original, await mock)` (`Promise.all` then `then`);
otherwise it is the synchronous `Object.assign(original, mock)`. -/
def mergePart {σ : Type} (s : MState σ) (a b : Value) :
    MState σ × Value :=
  if isPending a || isPending b then
    match objAssign s (settle a) (settle b) with
    | (s1, v) => (s1, .promise v)
  else objAssign s a b

/-- One provider call (`mockable`'s returned `instance`, src/resolver.ts
lines 38-57, identical to src/provider.ts lines 152-171, with the mock
lookup of src/provider.ts lines 28-37): look the provider itself up in the
context's mocks first; with no mock run the lifetime path; with a full mock
delegate to the mock provider with the same context; with a partial mock
run the lifetime path, then the mock provider, then merge.  `fuel` bounds
the call depth (a registry may mock a provider with itself); `none` means
the fuel ran out. -/
def callProvider {σ : Type} (W : List (PDef σ)) :
    Nat → Nat → Ctx → MState σ → Option (MState σ × Except Value Value)
  | 0, _, _, _ => none
  | Nat.succ fuel, pid, ctx, s =>
    match W[pid]? with
    | none => none
    | some d =>
      match ctxMock ctx pid with
      | none => some (lifetimeResolve d pid ctx s)
      | some mk =>
        if mk.isPart = false then callProvider W fuel mk.provider ctx s
        else
          match lifetimeResolve d pid ctx s with
          | (s1, .error e) => some (s1, .error e)
          | (s1, .ok a) =>
            match callProvider W fuel mk.provider ctx s1 with
            | none => none
            | some (s2, .error e) => some (s2, .error e)
            | some (s2, .ok b) =>
              match mergePart s2 a b with
              | (s3, v) => some (s3, .ok v)

/-- The resulting value of a provider call, when the call completed. -/
def stepResult {σ : Type} (W : List (PDef σ)) (fuel pid : Nat) (ctx : Ctx)
    (s : MState σ) : Option (Except Value Value) :=
  (callProvider W fuel pid ctx s).map (fun r => r.2)

/-- The machine state after a provider call (unchanged when the call did
not complete). -/
def stepState {σ : Type} (W : List (PDef σ)) (fuel pid : Nat) (ctx : Ctx)
    (s : MState σ) : MState σ :=
  match callProvider W fuel pid ctx s with
  | some (s1, _) => s1
  | none => s

/-- The invocation count of provider `q`'s resolver body after a provider
call. -/
def callsAfter {σ : Type} (W : List (PDef σ)) (fuel pid : Nat) (ctx : Ctx)
    (s : MState σ) (q : Nat) : Nat :=
  (stepState W fuel pid ctx s).calls q

/-- Result shape of `resolveList` (src/collection-resolution.ts lines
74-87): either the synchronous list of resolutions, or a single pending
value settling to the list of awaited resolutions. -/
inductive Bulk where
  | sync : List Value → Bulk
  | pend : List Value → Bulk
deriving DecidableEq

/-- Result shape of `resolveMap` (src/collection-resolution.ts lines
140-167): a synchronous keyed record, or a single pending value settling
to the keyed record of awaited resolutions. -/
inductive BulkMap where
  | sync : List (String × Value) → BulkMap
  | pend : List (String × Value) → BulkMap
deriving DecidableEq

/-- The `providers.map((provider) => provider(context))` step of
`resolveList` (line 80): every provider is invoked in input order with the
identical context; a thrown error aborts the walk and propagates. -/
def resolveEach {σ : Type} (W : List (PDef σ)) (fuel : Nat) (ctx : Ctx) :
    List Nat → MState σ → Option (MState σ × Except Value (List Value))
  | [], s => some (s, .ok [])
  | p :: ps, s =>
    match callProvider W fuel p ctx s with
    | none => none
    | some (s1, .error e) => some (s1, .error e)
    | some (s1, .ok v) =>
      match resolveEach W fuel ctx ps s1 with
      | none => none
      | some (s2, .error e) => some (s2, .error e)
      | some (s2, .ok vs) => some (s2, .ok (v :: vs))

/-- `resolveList` (src/collection-resolution.ts lines 74-87): resolve every
provider with the shared context, then return the synchronous list if no
resolution is pending, and otherwise a pending value settling to the list
of awaited resolutions (`Promise.all`). -/
def resolveList {σ : Type} (W : List (PDef σ)) (fuel : Nat)
    (ps : List Nat) (ctx : Ctx) (s : MState σ) :
    Option (MState σ × Except Value Bulk) :=
  match resolveEach W fuel ctx ps s with
  | none => none
  | some (s1, .error e) => some (s1, .error e)
  | some (s1, .ok vs) =>
    if vs.any isPending then some (s1, .ok (.pend (vs.map settle)))
    else some (s1, .ok (.sync vs))

/-- The `Object.entries(providers).map(([key, provider]) => [key,
provider(context)])` step of `resolveMap` (lines 146-148). -/
def resolveEachKeyed {σ : Type} (W : List (PDef σ)) (fuel : Nat)
    (ctx : Ctx) : List (String × Nat) → MState σ →
    Option (MState σ × Except Value (List (String × Value)))
  | [], s => some (s, .ok [])
  | p :: ps, s =>
    match callProvider W fuel p.2 ctx s with
    | none => none
    | some (s1, .error e) => some (s1, .error e)
    | some (s1, .ok v) =>
      match resolveEachKeyed W fuel ctx ps s1 with
      | none => none
      | some (s2, .error e) => some (s2, .error e)
      | some (s2, .ok vs) => some (s2, .ok ((p.1, v) :: vs))

/-- `resolveMap` (src/collection-resolution.ts lines 140-167): resolve
every provider of the record with the shared context, then return the
synchronous record if no resolution is pending, and otherwise a pending
value settling to the record with every entry awaited under its original
key. -/
def resolveMap {σ : Type} (W : List (PDef σ)) (fuel : Nat)
    (ps : List (String × Nat)) (ctx : Ctx) (s : MState σ) :
    Option (MState σ × Except Value BulkMap) :=
  match resolveEachKeyed W fuel ctx ps s with
  | none => none
  | some (s1, .error e) => some (s1, .error e)
  | some (s1, .ok vs) =>
    if vs.any (fun e => isPending e.2) then
      some (s1, .ok (.pend (vs.map (fun e => (e.1, settle e.2)))))
    else some (s1, .ok (.sync vs))

/-- Example world for the concrete witnesses: provider 0 is a singleton
resolving the heap object at address 0; 1 a transient resolving the heap
object at address 1 (used as a partial mock); 2 a transient resolving the
number 5 (used as a full mock); 3 a singleton whose resolver throws; 4 a
scoped provider resolving the number 7; 5 a scoped provider whose
resolver throws; 6 a transient resolving a pending number; 7 a singleton
resolving `undefined`; 8 a transient resolving a pending object reference
(used as an asynchronous partial mock). -/
def exW : List (PDef Unit) :=
  [⟨.singleton, fun e h => (e, h, .ok (.ref 0))⟩,
   ⟨.transient, fun e h => (e, h, .ok (.ref 1))⟩,
   ⟨.transient, fun e h => (e, h, .ok (.num 5))⟩,
   ⟨.singleton, fun e h => (e, h, .error (.str "boom"))⟩,
   ⟨.scoped, fun e h => (e, h, .ok (.num 7))⟩,
   ⟨.scoped, fun e h => (e, h, .error (.str "bam"))⟩,
   ⟨.transient, fun e h => (e, h, .ok (.promise (.num 9)))⟩,
   ⟨.singleton, fun e h => (e, h, .ok .undef)⟩,
   ⟨.transient, fun e h => (e, h, .ok (.promise (.ref 1)))⟩]

/-- Example heap: address 0 holds `{a: 1, b: 2}`, address 1 holds
`{b: 99}`. -/
def exHeap : List Obj :=
  [[("a", .num 1), ("b", .num 2)], [("b", .num 99)]]

/-- Fresh example machine state over `exHeap`. -/
def exS0 : MState Unit :=
  ⟨(), exHeap, fun _ => none, fun _ => [], fun _ => 0⟩

/-- Example machine state in which singleton provider 0 has already cached
the object at heap address 0. -/
def exSCached : MState Unit :=
  ⟨(), exHeap, fun i => if i = 0 then some (.ref 0) else none,
   fun _ => [], fun _ => 0⟩

/-- Registry holding a full mock replacing provider 0 by provider 2. -/
def exRfull : Mocks := (Mocks.mk []).mock 0 2

/-- Registry holding a partial mock overlaying provider 1 onto
provider 0. -/
def exRpart : Mocks := (Mocks.mk []).mockPartially 0 1

/-- Registry holding a pending partial mock overlaying provider 8 onto
provider 0. -/
def exRpartAsync : Mocks := (Mocks.mk []).mockPartially 0 8

/-- Registry holding a partial mock overlaying provider 1 onto the
scoped provider 4. -/
def exRpartScoped : Mocks := (Mocks.mk []).mockPartially 4 1

/-- Example machine state in which scope 0 already maps the scoped
provider 4 to the object at heap address 0. -/
def exSScoped : MState Unit :=
  ⟨(), exHeap, fun _ => none,
   (fun sidx => if sidx = 0 then [(4, Value.ref 0)] else []),
   fun _ => 0⟩

end AtomicDi

namespace AtomicDi

/-- Generic helper: a filter that keeps every entry under key `k` does not
change the first entry found under `k`. -/
theorem find?_filter_key {K V : Type} [DecidableEq K]
    (l : List (K × V)) (k : K) (P : K × V → Bool)
    (hP : ∀ a : K × V, a.1 = k → P a = true) :
    (l.filter P).find? (fun e => e.1 = k) = l.find? (fun e => e.1 = k) := by
  induction l with
  | nil => rfl
  | cons a rest ih =>
    by_cases hak : a.1 = k
    · have hPa : P a = true := hP a hak
      simp [List.filter_cons, hPa, hak]
    · by_cases hPa : P a = true
      · simp [List.filter_cons, hPa, hak, ih]
      · simp [List.filter_cons, hPa, hak, ih]

/-- Generic helper: a filter that removes every entry under key `k` makes
the lookup of `k` fail. -/
theorem find?_filter_none {K V : Type} [DecidableEq K]
    (l : List (K × V)) (k : K) (P : K × V → Bool)
    (hP : ∀ a : K × V, a.1 = k → P a = false) :
    (l.filter P).find? (fun e => e.1 = k) = none := by
  rw [List.find?_eq_none]
  intro a ha
  rw [List.mem_filter] at ha
  intro hk
  have h1 : P a = false := hP a (by simpa using hk)
  have h2 := ha.2
  rw [h1] at h2
  cases h2

/-- Lookup after the `set` helper of `createMocks`: the new registry holds
the new entry under the registered key and agrees with the old one under
every other key. -/
theorem mocks_set_get (R : Mocks) (p k : Nat) (v : MockEntry) :
    (R.set p v).get k = if k = p then some v else R.get k := by
  unfold Mocks.set Mocks.get
  by_cases h : k = p
  · subst h
    have hnone : (R.entries.filter (fun e => ¬ e.1 = k)).find?
        (fun e => e.1 = k) = none := by
      refine find?_filter_none _ _ _ ?_
      intro a ha
      simp [ha]
    simp [List.find?_append, hnone]
  · have hfilter := find?_filter_key R.entries k
      (fun e => ¬ e.1 = p) (fun a hak => by simp [hak, h])
    have h2 : ¬ p = k := fun hh => h hh.symm
    have hsing : [(p, v)].find? (fun e => e.1 = k) = none := by simp [h2]
    rw [List.find?_append, hfilter, hsing, Option.or_none, if_neg h]

/-- Entry-level description of `add` of `createMockMap`: the always-true
length guard means the mapped entries always get the new pair appended. -/
theorem mockmap_add_entries (M : MockMap) (q r : Nat) :
    (M.add q r).entries =
      M.entries.map (fun e => if e.1 = q then (e.1, r) else e) ++ [(q, r)] := by
  unfold MockMap.add
  simp [List.length_map]

/-- List-level lookup behaviour of the entries produced by `add`. -/
theorem find?_add_list (l : List (Nat × Nat)) (q r k : Nat) :
    (Option.map (fun e => e.2)
      ((l.map (fun e => if e.1 = q then (e.1, r) else e) ++ [(q, r)]).find?
        (fun e => e.1 = k))).getD k =
    if k = q then r
    else (Option.map (fun e => e.2) (l.find? (fun e => e.1 = k))).getD k := by
  induction l with
  | nil =>
    by_cases h : k = q
    · subst h; simp
    · have h2 : ¬ q = k := fun hh => h hh.symm
      simp [h, h2]
  | cons a rest ih =>
    by_cases ha : a.1 = q
    · by_cases h : k = q
      · subst h
        simp [ha]
      · have hka : ¬ a.1 = k := by rw [ha]; exact fun hh => h hh.symm
        simp only [List.map_cons, if_pos ha, List.cons_append]
        rw [List.find?_cons_of_neg _ (by simpa using hka)]
        rw [ih]
        rw [List.find?_cons_of_neg _ (by simpa using hka)]
    · by_cases hak : a.1 = k
      · have hkq : ¬ k = q := fun hh => ha (by rw [hak]; exact hh)
        simp only [List.map_cons, if_neg ha, List.cons_append]
        rw [List.find?_cons_of_pos _ (by simpa using hak)]
        rw [List.find?_cons_of_pos _ (by simpa using hak)]
        simp [hkq]
      · simp only [List.map_cons, if_neg ha, List.cons_append]
        rw [List.find?_cons_of_neg _ (by simpa using hak)]
        rw [List.find?_cons_of_neg _ (by simpa using hak)]
        exact ih

/-- Lookup after `add` of `createMockMap`: the new map sends the
registered key to the replacement and agrees with the old map elsewhere
(even though the source's always-true length guard appends a duplicate
entry when the key was already present, lookups stop at the first
entry). -/
theorem mockmap_add_map (M : MockMap) (q r k : Nat) :
    (M.add q r).map k = if k = q then r else M.map k := by
  unfold MockMap.map
  rw [mockmap_add_entries]
  exact find?_add_list M.entries q r k

/-- Lookup in the merged immutable map (`merge` of `createImmutableMap`):
the second map's entry wins, otherwise fall back to the first map. -/
theorem imGet_imMerge {K V : Type} [DecidableEq K]
    (m1 m2 : List (K × V)) (k : K) :
    imGet (imMerge m1 m2) k = (imGet m2 k).or (imGet m1 k) := by
  unfold imMerge imGet
  show Option.map (fun e => e.2)
      ((m1.filter (fun e => (imGet m2 e.1).isNone) ++ m2).find?
        (fun e => e.1 = k)) = _
  rw [List.find?_append]
  rcases h : m2.find? (fun e => e.1 = k) with _ | a
  · rw [find?_filter_key m1 k _ (fun a hak => by simp [imGet, hak, h]), h]
    simp
  · rw [find?_filter_none m1 k _ (fun b hbk => by simp [imGet, hbk, h]), h]
    simp

/-- Lookup in the merged mock map (`apply` of `createMockMap`): keys the
other map defines resolve through the other map, the rest through the
receiver. -/
theorem mockmap_apply_map (M1 M2 : MockMap) (p : Nat) :
    (M1.apply M2).map p =
      if (M2.entries.find? (fun e => e.1 = p)).isSome then M2.map p
      else M1.map p := by
  unfold MockMap.apply MockMap.map
  rcases h : M2.entries.find? (fun e => e.1 = p) with _ | a
  · have hkeep : (M1.entries.filter
        (fun e => (M2.entries.find? (fun oe => oe.1 = e.1)).isNone)).find?
        (fun e => e.1 = p) = M1.entries.find? (fun e => e.1 = p) := by
      refine find?_filter_key _ _ _ ?_
      intro a hap
      simp [hap, h]
    rw [List.find?_append, hkeep, h]
    simp
  · have hdrop : (M1.entries.filter
        (fun e => (M2.entries.find? (fun oe => oe.1 = e.1)).isNone)).find?
        (fun e => e.1 = p) = none := by
      refine find?_filter_none _ _ _ ?_
      intro b hbp
      simp [hbp, h]
    rw [List.find?_append, hdrop, h]
    simp

/-- C7: for every mock registry `R` and every registration operation
producing a new registry (`mock`/`mockPartially` of `createMocks`, `add`
of `createMockMap`), the original registry is not mutated — the operations
rebuild fresh entry lists, embedded here as pure functions of the old
entries, so every lookup on the original is unchanged — and the new
registry differs from the original exactly at the registered key. -/
theorem registry_registration_immutable (R : Mocks) (M : MockMap)
    (p m q r k : Nat) :
    ((R.mock p m).get k = if k = p then some ⟨false, m⟩ else R.get k) ∧
    ((R.mockPartially p m).get k =
      if k = p then some ⟨true, m⟩ else R.get k) ∧
    ((M.add q r).map k = if k = q then r else M.map k) :=
  ⟨mocks_set_get R p k ⟨false, m⟩, mocks_set_get R p k ⟨true, m⟩,
    mockmap_add_map M q r k⟩

/-- C8: for every pair of registries and every key, the merged registry
(`apply` of `createMockMap`, `merge` of `createImmutableMap`) looks the
key up to the second registry's entry whenever the second registry has
one, and otherwise to the first registry's entry; the merge rebuilds a
fresh entry list, embedded as a pure function of both inputs, so neither
input is mutated. -/
theorem registry_merge_precedence {K V : Type} [DecidableEq K]
    (m1 m2 : List (K × V)) (k : K) (M1 M2 : MockMap) (p : Nat) :
    (imGet (imMerge m1 m2) k = (imGet m2 k).or (imGet m1 k)) ∧
    ((M1.apply M2).map p =
      if (M2.entries.find? (fun e => e.1 = p)).isSome then M2.map p
      else M1.map p) :=
  ⟨imGet_imMerge m1 m2 k, mockmap_apply_map M1 M2 p⟩

/-- Running a resolver body increments its provider's invocation count. -/
theorem invoke_calls_self {σ : Type} (d : PDef σ) (pid : Nat)
    (s : MState σ) : (invoke d pid s).1.calls pid = s.calls pid + 1 := by
  unfold invoke
  rcases d.run s.ext s.heap with ⟨e, h, r⟩
  simp [upd]

/-- Running one provider's resolver body leaves the invocation counts of
all other providers unchanged. -/
theorem invoke_calls_ne {σ : Type} (d : PDef σ) (pid q : Nat)
    (s : MState σ) (h : ¬ q = pid) :
    (invoke d pid s).1.calls q = s.calls q := by
  unfold invoke
  rcases d.run s.ext s.heap with ⟨e, hh, r⟩
  simp [upd, h]

/-- Running a resolver body does not touch any memo cell. -/
theorem invoke_memo {σ : Type} (d : PDef σ) (pid : Nat) (s : MState σ) :
    (invoke d pid s).1.memo = s.memo := by
  unfold invoke
  rcases d.run s.ext s.heap with ⟨e, h, r⟩
  rfl

/-- Running a resolver body does not touch any scope. -/
theorem invoke_scopes {σ : Type} (d : PDef σ) (pid : Nat) (s : MState σ) :
    (invoke d pid s).1.scopes = s.scopes := by
  unfold invoke
  rcases d.run s.ext s.heap with ⟨e, h, r⟩
  rfl

/-- Looking up a key right after writing it yields the written value
(`Map.prototype.set` then `get`). -/
theorem scopeGet_scopeSet_self (l : List (Nat × Value)) (pid : Nat)
    (v : Value) : scopeGet (scopeSet l pid v) pid = some v := by
  induction l with
  | nil => simp [scopeSet, scopeGet]
  | cons a rest ih =>
    by_cases h : a.1 = pid
    · simp [scopeSet, h, scopeGet]
    · simp only [scopeSet, if_neg h]
      unfold scopeGet
      rw [List.find?_cons_of_neg _ (by simpa using h)]
      exact ih

/-- The in-place `Object.assign` merge leaves every invocation count
unchanged. -/
theorem mergePart_calls {σ : Type} (s : MState σ) (a b : Value) :
    (mergePart s a b).1.calls = s.calls := by
  unfold mergePart objAssign
  by_cases h : (isPending a || isPending b) = true
  · rw [if_pos h]
    rcases settle a with _ | _ | i | _ | _ <;> rfl
  · rw [if_neg h]
    rcases a with _ | _ | i | _ | _ <;> rfl

/-- The in-place `Object.assign` merge leaves every memo cell unchanged. -/
theorem mergePart_memo {σ : Type} (s : MState σ) (a b : Value) :
    (mergePart s a b).1.memo = s.memo := by
  unfold mergePart objAssign
  by_cases h : (isPending a || isPending b) = true
  · rw [if_pos h]
    rcases settle a with _ | _ | i | _ | _ <;> rfl
  · rw [if_neg h]
    rcases a with _ | _ | i | _ | _ <;> rfl

/-- The memo path of provider `pid` never runs another provider's resolver
body. -/
theorem memoResolve_calls_ne {σ : Type} (d : PDef σ) (pid q : Nat)
    (s : MState σ) (hq : ¬ q = pid) :
    (memoResolve d pid s).1.calls q = s.calls q := by
  cases hm : s.memo pid with
  | some v => simp [memoResolve, hm]
  | none =>
    rcases hr : invoke d pid s with ⟨s1, r⟩
    have hc := invoke_calls_ne d pid q s hq
    rw [hr] at hc
    cases r with
    | ok v =>
      simp only [memoResolve, hm, hr]
      exact hc
    | error e =>
      simp only [memoResolve, hm, hr]
      exact hc

/-- The lifetime path of provider `pid` never runs another provider's
resolver body: all other invocation counts are unchanged. -/
theorem lifetimeResolve_calls_ne {σ : Type} (d : PDef σ) (pid q : Nat)
    (ctx : Ctx) (s : MState σ) (hq : ¬ q = pid) :
    (lifetimeResolve d pid ctx s).1.calls q = s.calls q := by
  rcases hl : d.lifetime with _ | _ | _
  · simp only [lifetimeResolve, hl]
    exact invoke_calls_ne d pid q s hq
  · simp only [lifetimeResolve, hl]
    exact memoResolve_calls_ne d pid q s hq
  · rcases hs : ctx.scope with _ | sid
    · simp only [lifetimeResolve, hl, hs]
      exact memoResolve_calls_ne d pid q s hq
    · simp only [lifetimeResolve, hl, hs]
      cases hg : scopeGet (s.scopes sid) pid with
      | some v => simp [hg]
      | none =>
        rcases hr : invoke d pid s with ⟨s1, r⟩
        have hc := invoke_calls_ne d pid q s hq
        rw [hr] at hc
        cases r with
        | ok v =>
          simp only [hg, hr]
          exact hc
        | error e =>
          simp only [hg, hr]
          exact hc

/-- While the context carries a full mock for provider `pid`, no resolution
activity under that context can reach `pid`'s own resolver body: the mock
lookup is evaluated before every lifetime path, so any call of `pid`
delegates away before its resolver or cache could run. -/
theorem calls_preserved_of_full_mock {σ : Type} (W : List (PDef σ))
    (R : Mocks) (pid mid : Nat) (ctx : Ctx)
    (hm : ctx.mocks = some R) (hR : R.get pid = some ⟨false, mid⟩) :
    ∀ fuel q s r, callProvider W fuel q ctx s = some r →
      r.1.calls pid = s.calls pid := by
  have hpidmock : ctxMock ctx pid = some ⟨false, mid⟩ := by
    simp [ctxMock, hm, hR]
  intro fuel
  induction fuel with
  | zero =>
    intro q s r h
    simp [callProvider] at h
  | succ fuel ih =>
    intro q s r h
    rcases hWq : W[q]? with _ | d
    · have e1 : callProvider W (fuel+1) q ctx s = none := by
        simp [callProvider, hWq]
      rw [e1] at h
      cases h
    · rcases hcm : ctxMock ctx q with _ | mk
      · have hq : ¬ pid = q := by
          intro he
          rw [← he, hpidmock] at hcm
          cases hcm
        have e1 : callProvider W (fuel+1) q ctx s =
            some (lifetimeResolve d q ctx s) := by
          simp [callProvider, hWq, hcm]
        rw [e1] at h
        cases h
        exact lifetimeResolve_calls_ne d q pid ctx s hq
      · cases hip : mk.isPart with
        | false =>
          have e1 : callProvider W (fuel+1) q ctx s =
              callProvider W fuel mk.provider ctx s := by
            simp [callProvider, hWq, hcm, hip]
          rw [e1] at h
          exact ih mk.provider s r h
        | true =>
          have hq : ¬ pid = q := by
            intro he
            rw [← he, hpidmock] at hcm
            have hmk := Option.some.inj hcm
            rw [← hmk] at hip
            cases hip
          rcases hlr : lifetimeResolve d q ctx s with ⟨s1, r1⟩
          have hs1 : s1.calls pid = s.calls pid := by
            have hx := lifetimeResolve_calls_ne d q pid ctx s hq
            rw [hlr] at hx
            exact hx
          cases r1 with
          | error e =>
            have e1 : callProvider W (fuel+1) q ctx s =
                some (s1, .error e) := by
              simp [callProvider, hWq, hcm, hip, hlr]
            rw [e1] at h
            cases h
            exact hs1
          | ok a =>
            rcases hc2 : callProvider W fuel mk.provider ctx s1 with _ | s2r
            · have e1 : callProvider W (fuel+1) q ctx s = none := by
                simp [callProvider, hWq, hcm, hip, hlr, hc2]
              rw [e1] at h
              cases h
            · rcases s2r with ⟨s2, r2⟩
              have hs2 : s2.calls pid = s1.calls pid :=
                ih mk.provider s1 (s2, r2) hc2
              cases r2 with
              | error e =>
                have e1 : callProvider W (fuel+1) q ctx s =
                    some (s2, .error e) := by
                  simp [callProvider, hWq, hcm, hip, hlr, hc2]
                rw [e1] at h
                cases h
                rw [hs2]
                exact hs1
              | ok b =>
                rcases hmp : mergePart s2 a b with ⟨s3, w⟩
                have e1 : callProvider W (fuel+1) q ctx s =
                    some (s3, .ok w) := by
                  simp [callProvider, hWq, hcm, hip, hlr, hc2, hmp]
                rw [e1] at h
                cases h
                have hs3 : s3.calls = s2.calls := by
                  have hy := mergePart_calls s2 a b
                  rw [hmp] at hy
                  exact hy
                rw [hs3, hs2]
                exact hs1

/-- A provider call with no mock registered for it and a lifetime path
that reduces to the memo path. -/
theorem callProvider_memo_path {σ : Type} (W : List (PDef σ)) (pid : Nat)
    (d : PDef σ) (ctx : Ctx) (fuel : Nat) (s : MState σ)
    (hW : W[pid]? = some d) (hcm : ctxMock ctx pid = none)
    (hpath : lifetimeResolve d pid ctx s = memoResolve d pid s) :
    callProvider W (fuel+1) pid ctx s = some (memoResolve d pid s) := by
  simp only [callProvider, hW, hcm]
  rw [hpath]

/-- Behaviour of the memoizing closure on a first successful resolution:
the body runs exactly once, the cell is filled with the result, and a
second pass returns the remembered result with the state untouched. -/
theorem memoResolve_spec {σ : Type} (d : PDef σ) (pid : Nat)
    (s : MState σ) (v : Value) (hmemo : s.memo pid = none)
    (hok : (memoResolve d pid s).2 = .ok v) :
    (memoResolve d pid s).1.calls pid = s.calls pid + 1 ∧
    (memoResolve d pid s).1.memo pid = some v ∧
    memoResolve d pid (memoResolve d pid s).1 =
      ((memoResolve d pid s).1, .ok v) := by
  rcases hr : invoke d pid s with ⟨s1, r⟩
  have hcalls := invoke_calls_self d pid s
  rw [hr] at hcalls
  cases r with
  | error e =>
    rw [memoResolve, hmemo, hr] at hok
    cases hok
  | ok w =>
    have heq : memoResolve d pid s =
        ({ s1 with memo := upd s1.memo pid (some w) }, .ok w) := by
      rw [memoResolve, hmemo, hr]
    have hv : w = v := by
      rw [heq] at hok
      cases hok
      rfl
    subst hv
    refine ⟨?_, ?_, ?_⟩
    · rw [heq]
      exact hcalls
    · rw [heq]
      simp [upd]
    · rw [heq]
      have hhit : ({ s1 with memo := upd s1.memo pid (some w) } :
          MState σ).memo pid = some w := by simp [upd]
      rw [memoResolve, hhit]

/-- Shared core of the singleton behaviour (used both for `singleton`
providers and for `scoped` providers called without a scope): a first
successful call from a fresh cell runs the body once, caches the value,
and a second call under any memo-path context returns the identical value
without touching anything. -/
theorem memo_provider_resolves_once {σ : Type} (W : List (PDef σ))
    (pid : Nat) (d : PDef σ) (fuel1 fuel2 : Nat) (ctx1 ctx2 : Ctx)
    (s0 : MState σ) (v : Value)
    (hW : W[pid]? = some d)
    (hcm1 : ctxMock ctx1 pid = none)
    (hcm2 : ctxMock ctx2 pid = none)
    (hp1 : lifetimeResolve d pid ctx1 s0 = memoResolve d pid s0)
    (hp2 : ∀ t : MState σ, lifetimeResolve d pid ctx2 t = memoResolve d pid t)
    (hmemo : s0.memo pid = none)
    (h1 : stepResult W (fuel1+1) pid ctx1 s0 = some (.ok v)) :
    (stepState W (fuel1+1) pid ctx1 s0).calls pid = s0.calls pid + 1 ∧
    (stepState W (fuel1+1) pid ctx1 s0).memo pid = some v ∧
    stepResult W (fuel2+1) pid ctx2 (stepState W (fuel1+1) pid ctx1 s0) =
      some (.ok v) ∧
    stepState W (fuel2+1) pid ctx2 (stepState W (fuel1+1) pid ctx1 s0) =
      stepState W (fuel1+1) pid ctx1 s0 := by
  have e1 : callProvider W (fuel1+1) pid ctx1 s0 =
      some (memoResolve d pid s0) :=
    callProvider_memo_path W pid d ctx1 fuel1 s0 hW hcm1 hp1
  have hok : (memoResolve d pid s0).2 = .ok v := by
    unfold stepResult at h1
    rw [e1] at h1
    simpa using h1
  obtain ⟨hc, hmm, hsecond⟩ := memoResolve_spec d pid s0 v hmemo hok
  have hss : stepState W (fuel1+1) pid ctx1 s0 = (memoResolve d pid s0).1 := by
    unfold stepState
    rw [e1]
  have e2 : callProvider W (fuel2+1) pid ctx2 (memoResolve d pid s0).1 =
      some (memoResolve d pid (memoResolve d pid s0).1) :=
    callProvider_memo_path W pid d ctx2 fuel2 (memoResolve d pid s0).1 hW
      hcm2 (hp2 (memoResolve d pid s0).1)
  refine ⟨?_, ?_, ?_, ?_⟩
  · rw [hss]
    exact hc
  · rw [hss]
    exact hmm
  · rw [hss]
    unfold stepResult
    rw [e2, hsecond]
    rfl
  · rw [hss]
    unfold stepState
    rw [e2, hsecond]

/-- C1: for every provider `p` (of any lifetime, over any machine state —
including a singleton that has already cached a value) and full mock `m`
registered for `p` in the context's registry, calling `p` is exactly
calling `m` with the same context, and `p`'s own resolver body is never
invoked by any resolution activity under that context, because the mock
lookup is evaluated before the lifetime/caching path. -/
theorem full_mock_bypass {σ : Type} (W : List (PDef σ)) (R : Mocks)
    (pid mid : Nat) (d : PDef σ) (ctx : Ctx) (fuel fq q : Nat)
    (s sq : MState σ)
    (hW : W[pid]? = some d)
    (hm : ctx.mocks = some R)
    (hR : R.get pid = some ⟨false, mid⟩) :
    callProvider W (fuel+1) pid ctx s = callProvider W fuel mid ctx s ∧
    callsAfter W fq q ctx sq pid = sq.calls pid := by
  constructor
  · simp [callProvider, hW, ctxMock, hm, hR]
  · unfold callsAfter stepState
    rcases hc : callProvider W fq q ctx sq with _ | r
    · rfl
    · exact calls_preserved_of_full_mock W R pid mid ctx hm hR fq q sq r hc

/-- Witness for C1: singleton provider 0 has already cached the object at
address 0, yet its call delegates to full mock 2 and its resolver body is
never invoked. -/
theorem full_mock_bypass_w :
    exRfull.get 0 = some ⟨false, 2⟩ ∧
    (callProvider exW 2 0 ⟨none, some exRfull⟩ exSCached =
        callProvider exW 1 2 ⟨none, some exRfull⟩ exSCached ∧
      callsAfter exW 1 0 ⟨none, some exRfull⟩ exSCached 0 =
        exSCached.calls 0) :=
  ⟨rfl, full_mock_bypass exW exRfull 0 2
    ⟨.singleton, fun e h => (e, h, .ok (.ref 0))⟩
    ⟨none, some exRfull⟩ 1 1 0 exSCached exSCached rfl rfl rfl⟩

/-- C3: for every resolver body and any two mock-free contexts, a
singleton provider resolves exactly once: the first successful call runs
the body once and fills the cell (also when the resolved value is
`undefined`, since resolvedness is a separate flag, embedded as the
`Option` cell), and the second call — under any other context — returns
the identical value, leaving the whole machine state untouched. -/
theorem singleton_resolves_once {σ : Type} (W : List (PDef σ))
    (pid : Nat) (d : PDef σ) (fuel1 fuel2 : Nat) (ctx1 ctx2 : Ctx)
    (s0 : MState σ) (v : Value)
    (hW : W[pid]? = some d)
    (hlt : d.lifetime = .singleton)
    (hm1 : ctx1.mocks = none)
    (hm2 : ctx2.mocks = none)
    (hmemo : s0.memo pid = none)
    (h1 : stepResult W (fuel1+1) pid ctx1 s0 = some (.ok v)) :
    (stepState W (fuel1+1) pid ctx1 s0).calls pid = s0.calls pid + 1 ∧
    (stepState W (fuel1+1) pid ctx1 s0).memo pid = some v ∧
    stepResult W (fuel2+1) pid ctx2 (stepState W (fuel1+1) pid ctx1 s0) =
      some (.ok v) ∧
    stepState W (fuel2+1) pid ctx2 (stepState W (fuel1+1) pid ctx1 s0) =
      stepState W (fuel1+1) pid ctx1 s0 :=
  memo_provider_resolves_once W pid d fuel1 fuel2 ctx1 ctx2 s0 v hW
    (by simp [ctxMock, hm1]) (by simp [ctxMock, hm2])
    (by simp [lifetimeResolve, hlt]) (fun t => by simp [lifetimeResolve, hlt])
    hmemo h1

/-- Witness for C3 at singleton provider 7, whose resolver returns
`undefined`: the value is still cached and the body runs once. -/
theorem singleton_resolves_once_w :
    (exS0.memo 7 = none ∧
      stepResult exW 1 7 ⟨none, none⟩ exS0 = some (.ok .undef)) ∧
    ((stepState exW 1 7 ⟨none, none⟩ exS0).calls 7 = exS0.calls 7 + 1 ∧
      (stepState exW 1 7 ⟨none, none⟩ exS0).memo 7 = some .undef ∧
      stepResult exW 1 7 ⟨none, none⟩ (stepState exW 1 7 ⟨none, none⟩ exS0) =
        some (.ok .undef) ∧
      stepState exW 1 7 ⟨none, none⟩ (stepState exW 1 7 ⟨none, none⟩ exS0) =
        stepState exW 1 7 ⟨none, none⟩ exS0) :=
  ⟨⟨rfl, rfl⟩, singleton_resolves_once exW 7
    ⟨.singleton, fun e h => (e, h, .ok .undef)⟩ 0 0
    ⟨none, none⟩ ⟨none, none⟩ exS0 .undef rfl rfl rfl rfl rfl rfl⟩

/-- C5: a scoped provider called with no scope in a mock-free context
falls back to singleton semantics: the first successful call runs the
body once and fills its private singleton cell, and a second scopeless
call returns the identical value leaving the machine state untouched. -/
theorem scoped_without_scope_singleton {σ : Type} (W : List (PDef σ))
    (pid : Nat) (d : PDef σ) (fuel1 fuel2 : Nat) (ctx1 ctx2 : Ctx)
    (s0 : MState σ) (v : Value)
    (hW : W[pid]? = some d)
    (hlt : d.lifetime = .scoped)
    (hm1 : ctx1.mocks = none)
    (hm2 : ctx2.mocks = none)
    (hsc1 : ctx1.scope = none)
    (hsc2 : ctx2.scope = none)
    (hmemo : s0.memo pid = none)
    (h1 : stepResult W (fuel1+1) pid ctx1 s0 = some (.ok v)) :
    (stepState W (fuel1+1) pid ctx1 s0).calls pid = s0.calls pid + 1 ∧
    (stepState W (fuel1+1) pid ctx1 s0).memo pid = some v ∧
    stepResult W (fuel2+1) pid ctx2 (stepState W (fuel1+1) pid ctx1 s0) =
      some (.ok v) ∧
    stepState W (fuel2+1) pid ctx2 (stepState W (fuel1+1) pid ctx1 s0) =
      stepState W (fuel1+1) pid ctx1 s0 :=
  memo_provider_resolves_once W pid d fuel1 fuel2 ctx1 ctx2 s0 v hW
    (by simp [ctxMock, hm1]) (by simp [ctxMock, hm2])
    (by simp [lifetimeResolve, hlt, hsc1])
    (fun t => by simp [lifetimeResolve, hlt, hsc2])
    hmemo h1

/-- Property write then lookup on an object: the written key reads back
the new value, other keys are unchanged. -/
theorem getField_setField (t : Obj) (k q : String) (v : Value) :
    getField (setField t q v) k = if k = q then some v else getField t k := by
  induction t with
  | nil =>
    by_cases h : k = q
    · subst h
      simp [setField, getField]
    · have h2 : ¬ q = k := fun hh => h hh.symm
      simp [setField, getField, h, h2]
  | cons p rest ih =>
    by_cases hp : p.1 = q
    · simp only [setField, if_pos hp]
      by_cases h : k = q
      · subst h
        simp [getField]
      · have h2 : ¬ q = k := fun hh => h hh.symm
        have h3 : ¬ p.1 = k := by rw [hp]; exact h2
        unfold getField
        rw [List.find?_cons_of_neg _ (by simpa using h2),
          List.find?_cons_of_neg _ (by simpa using h3)]
        simp [getField, h]
    · simp only [setField, if_neg hp]
      by_cases hk : p.1 = k
      · have h : ¬ k = q := by rw [← hk]; exact hp
        unfold getField
        rw [List.find?_cons_of_pos _ (by simpa using hk),
          List.find?_cons_of_pos _ (by simpa using hk)]
        simp [h]
      · unfold getField
        rw [List.find?_cons_of_neg _ (by simpa using hk),
          List.find?_cons_of_neg _ (by simpa using hk)]
        exact ih

/-- A key that no field of the object carries reads back nothing. -/
theorem getField_none_of_not_mem (u : Obj) (k : String)
    (h : ¬ k ∈ u.map Prod.fst) : getField u k = none := by
  unfold getField
  have hf : u.find? (fun p => p.1 = k) = none := by
    rw [List.find?_eq_none]
    intro a ha hk
    have hak : Prod.fst a = k := by simpa using hk
    exact h (List.mem_map.mpr ⟨a, ha, hak⟩)
  rw [hf]
  rfl

/-- The `Object.assign` field overlay: on sources without duplicate keys
(every JS object), the source's fields win on collision and all fields of
the target absent from the source are preserved. -/
theorem getField_assignFields (t u : Obj) (k : String)
    (hn : (u.map Prod.fst).Nodup) :
    getField (assignFields t u) k = (getField u k).or (getField t k) := by
  induction u generalizing t with
  | nil => simp [assignFields, getField]
  | cons p rest ih =>
    have hn' : (rest.map Prod.fst).Nodup := by
      rw [List.map_cons, List.nodup_cons] at hn
      exact hn.2
    have hhead : ¬ p.1 ∈ rest.map Prod.fst := by
      rw [List.map_cons, List.nodup_cons] at hn
      exact hn.1
    have hstep : assignFields t (p :: rest) =
        assignFields (setField t p.1 p.2) rest := by
      simp [assignFields]
    rw [hstep, ih (setField t p.1 p.2) hn']
    by_cases h : k = p.1
    · have hrest : getField rest k = none :=
        getField_none_of_not_mem rest k (by rw [h]; exact hhead)
      rw [hrest, getField_setField, if_pos h]
      unfold getField
      rw [List.find?_cons_of_pos _ (by simpa using h.symm)]
      rfl
    · rw [getField_setField, if_neg h]
      have h2 : ¬ p.1 = k := fun hh => h hh.symm
      unfold getField
      rw [List.find?_cons_of_neg _ (by simpa using h2)]

/-- A non-pending value settles to itself. -/
theorem settle_eq_self (v : Value) (h : isPending v = false) :
    settle v = v := by
  cases v with
  | promise w => simp [isPending] at h
  | num n => rfl
  | str t => rfl
  | ref i => rfl
  | undef => rfl

/-- The partial-mock merge on an original candidate that settles to an
object reference: the heap object is overwritten in place with the
source's fields copied onto it, the returned value is the very same
reference, and it is wrapped as a pending value exactly when one of the
candidates is pending. -/
theorem mergePart_spec {σ : Type} (s : MState σ) (a b : Value) (i : Nat)
    (ha : settle a = .ref i) :
    mergePart s a b =
      ({ s with heap := s.heap.set i (assignFields (s.heap.getD i [])
          (fieldsOf s (settle b))) },
       if isPending a || isPending b then .promise (.ref i)
       else .ref i) := by
  unfold mergePart
  by_cases hp : (isPending a || isPending b) = true
  · rw [if_pos hp, if_pos hp]
    simp [objAssign, ha]
  · have hp' : (isPending a || isPending b) = false := by
      revert hp
      cases isPending a <;> cases isPending b <;> simp
    have hpa : isPending a = false := by
      revert hp'
      cases isPending a <;> simp
    have hpb : isPending b = false := by
      revert hp'
      cases isPending a <;> cases isPending b <;> simp
    rw [if_neg hp, if_neg hp]
    have haa : a = .ref i := by
      rw [← settle_eq_self a hpa]
      exact ha
    rw [haa, settle_eq_self b hpb]
    simp [objAssign]

/-- The partial-mock merge in the synchronous case: both candidates are
non-pending, the target object is overwritten in place and the same
reference is returned without a pending wrapper. -/
theorem mergePart_spec_sync {σ : Type} (s : MState σ) (b : Value)
    (i : Nat) (hb : isPending b = false) :
    mergePart s (.ref i) b =
      ({ s with heap := s.heap.set i (assignFields (s.heap.getD i [])
          (fieldsOf s b)) }, .ref i) := by
  unfold mergePart
  have hneg : ¬ ((isPending (Value.ref i) || isPending b) = true) := by
    rw [show (isPending (Value.ref i) || isPending b) = false from by
      rw [hb]; rfl]
    exact Bool.false_ne_true
  rw [if_neg hneg]
  simp [objAssign]

/-- Re-writing the value a scope already holds leaves the scope's entry
list unchanged (`Map.prototype.set` with the stored value). -/
theorem scopeSet_of_get (l : List (Nat × Value)) (pid : Nat) (v : Value)
    (h : scopeGet l pid = some v) : scopeSet l pid v = l := by
  induction l with
  | nil => simp [scopeGet] at h
  | cons e rest ih =>
    by_cases he : e.1 = pid
    · have hv : e.2 = v := by
        unfold scopeGet at h
        rw [List.find?_cons_of_pos _ (by simpa using he)] at h
        simpa using h
      unfold scopeSet
      rw [if_pos he]
      have hpair : (pid, v) = e := by
        rw [← he, ← hv]
      rw [hpair]
    · unfold scopeSet
      rw [if_neg he]
      unfold scopeGet at h
      rw [List.find?_cons_of_neg _ (by simpa using he)] at h
      rw [ih h]

/-- Re-writing a store index with its own contents changes nothing. -/
theorem upd_self {α : Type} (f : Nat → α) (i : Nat) : upd f i (f i) = f := by
  funext j
  unfold upd
  by_cases h : j = i
  · rw [if_pos h, h]
  · rw [if_neg h]

/-- The scoped lifetime path on a cache hit returns the stored value and
leaves the machine state unchanged (the source re-`set`s the stored value
under the same key, which does not alter the scope). -/
theorem lifetimeResolve_scoped_hit {σ : Type} (d : PDef σ) (pid : Nat)
    (ctx : Ctx) (s : MState σ) (sid : Nat) (v : Value)
    (hlt : d.lifetime = .scoped) (hs : ctx.scope = some sid)
    (hg : scopeGet (s.scopes sid) pid = some v) :
    lifetimeResolve d pid ctx s = (s, .ok v) := by
  simp only [lifetimeResolve, hlt, hs, hg]
  rw [scopeSet_of_get (s.scopes sid) pid v hg, upd_self]

/-- A completed call determines the post state. -/
theorem stepState_eq {σ : Type} (W : List (PDef σ)) (fuel pid : Nat)
    (ctx : Ctx) (s : MState σ) {p : MState σ × Except Value Value}
    (h : callProvider W fuel pid ctx s = some p) :
    stepState W fuel pid ctx s = p.1 := by
  unfold stepState
  rw [h]

/-- A completed call determines the result value. -/
theorem stepResult_eq {σ : Type} (W : List (PDef σ)) (fuel pid : Nat)
    (ctx : Ctx) (s : MState σ) {p : MState σ × Except Value Value}
    (h : callProvider W fuel pid ctx s = some p) :
    stepResult W fuel pid ctx s = some p.2 := by
  unfold stepResult
  rw [h]
  rfl

/-- Walking a provider list resolves exactly one value per provider. -/
theorem resolveEach_length {σ : Type} (W : List (PDef σ)) (fuel : Nat)
    (ctx : Ctx) : ∀ (ps : List Nat) (s s1 : MState σ) (vs : List Value),
    resolveEach W fuel ctx ps s = some (s1, .ok vs) →
      vs.length = ps.length := by
  intro ps
  induction ps with
  | nil =>
    intro s s1 vs h
    have hin := Option.some.inj h
    have hvs : ([] : List Value) = vs := by
      have h2 := congrArg Prod.snd hin
      simpa using h2
    rw [← hvs]
    rfl
  | cons p ps ih =>
    intro s s1 vs h
    rcases hc : callProvider W fuel p ctx s with _ | tr
    · rw [show resolveEach W fuel ctx (p :: ps) s = none from by
        simp [resolveEach, hc]] at h
      cases h
    · rcases tr with ⟨t, r⟩
      cases r with
      | error e =>
        rw [show resolveEach W fuel ctx (p :: ps) s =
            some (t, .error e) from by simp [resolveEach, hc]] at h
        simp at h
      | ok v =>
        rcases h2 : resolveEach W fuel ctx ps t with _ | s2r
        · rw [show resolveEach W fuel ctx (p :: ps) s = none from by
            simp [resolveEach, hc, h2]] at h
          cases h
        · rcases s2r with ⟨s2, r2⟩
          cases r2 with
          | error e =>
            rw [show resolveEach W fuel ctx (p :: ps) s =
                some (s2, .error e) from by simp [resolveEach, hc, h2]] at h
            simp at h
          | ok vs2 =>
            rw [show resolveEach W fuel ctx (p :: ps) s =
                some (s2, .ok (v :: vs2)) from by
              simp [resolveEach, hc, h2]] at h
            have hin := Option.some.inj h
            have hvs : v :: vs2 = vs := by
              have h3 := congrArg Prod.snd hin
              simpa using h3
            rw [← hvs]
            simp [ih t s2 vs2 h2]

/-- Walking a keyed provider record preserves the keys in order. -/
theorem resolveEachKeyed_keys {σ : Type} (W : List (PDef σ)) (fuel : Nat)
    (ctx : Ctx) : ∀ (kps : List (String × Nat)) (s s1 : MState σ)
    (kvs : List (String × Value)),
    resolveEachKeyed W fuel ctx kps s = some (s1, .ok kvs) →
      kvs.map Prod.fst = kps.map Prod.fst := by
  intro kps
  induction kps with
  | nil =>
    intro s s1 kvs h
    have hin := Option.some.inj h
    have hvs : ([] : List (String × Value)) = kvs := by
      have h2 := congrArg Prod.snd hin
      simpa using h2
    rw [← hvs]
    rfl
  | cons p ps ih =>
    intro s s1 kvs h
    rcases hc : callProvider W fuel p.2 ctx s with _ | tr
    · rw [show resolveEachKeyed W fuel ctx (p :: ps) s = none from by
        simp [resolveEachKeyed, hc]] at h
      cases h
    · rcases tr with ⟨t, r⟩
      cases r with
      | error e =>
        rw [show resolveEachKeyed W fuel ctx (p :: ps) s =
            some (t, .error e) from by simp [resolveEachKeyed, hc]] at h
        simp at h
      | ok v =>
        rcases h2 : resolveEachKeyed W fuel ctx ps t with _ | s2r
        · rw [show resolveEachKeyed W fuel ctx (p :: ps) s = none from by
            simp [resolveEachKeyed, hc, h2]] at h
          cases h
        · rcases s2r with ⟨s2, r2⟩
          cases r2 with
          | error e =>
            rw [show resolveEachKeyed W fuel ctx (p :: ps) s =
                some (s2, .error e) from by
              simp [resolveEachKeyed, hc, h2]] at h
            simp at h
          | ok vs2 =>
            rw [show resolveEachKeyed W fuel ctx (p :: ps) s =
                some (s2, .ok ((p.1, v) :: vs2)) from by
              simp [resolveEachKeyed, hc, h2]] at h
            have hin := Option.some.inj h
            have hvs : (p.1, v) :: vs2 = kvs := by
              have h3 := congrArg Prod.snd hin
              simpa using h3
            rw [← hvs]
            simp [ih t s2 vs2 h2]

/-- C6: `resolveList` and `resolveMap` invoke every provider of the
collection with the identical context (visible in `resolveEach` /
`resolveEachKeyed`, which thread one `ctx` through every call in input
order): when every individual resolution is synchronous the result is the
synchronous collection itself; when at least one is pending the result is
a single pending value settling to the entrywise-awaited collection, with
one entry per provider in input order (resp. under the original keys in
order), and non-pending entries passed through unchanged at their
position. -/
theorem bulk_resolution_normalizes {σ : Type} (W : List (PDef σ))
    (fuel : Nat) (ctx : Ctx) (ps : List Nat) (kps : List (String × Nat))
    (s sk s1 sk1 : MState σ) (vs : List Value)
    (kvs : List (String × Value)) (j : Nat) (w : Value)
    (h : resolveEach W fuel ctx ps s = some (s1, .ok vs))
    (hk : resolveEachKeyed W fuel ctx kps sk = some (sk1, .ok kvs))
    (hj : vs[j]? = some w)
    (hw : isPending w = false) :
    resolveList W fuel ps ctx s =
      some (s1, .ok (if vs.any isPending then .pend (vs.map settle)
        else .sync vs)) ∧
    vs.length = ps.length ∧
    (vs.map settle)[j]? = some w ∧
    resolveMap W fuel kps ctx sk =
      some (sk1, .ok (if kvs.any (fun e => isPending e.2) then
        .pend (kvs.map (fun e => (e.1, settle e.2))) else .sync kvs)) ∧
    kvs.map Prod.fst = kps.map Prod.fst := by
  refine ⟨?_, resolveEach_length W fuel ctx ps s s1 vs h, ?_, ?_,
    resolveEachKeyed_keys W fuel ctx kps sk sk1 kvs hk⟩
  · by_cases hpend : vs.any isPending = true
    · simp [resolveList, h, hpend]
    · simp [resolveList, h, hpend]
  · rw [List.getElem?_map, hj]
    show some (settle w) = some w
    rw [settle_eq_self w hw]
  · by_cases hpend : kvs.any (fun e => isPending e.2) = true
    · simp [resolveMap, hk, hpend]
    · simp [resolveMap, hk, hpend]

/-- Witness for C6 over the list `[2, 6]` (a synchronous number and a
pending number) and the record `{a: 2, b: 6}`: the result is one pending
collection in input order with the synchronous entry passed through. -/
theorem bulk_resolution_normalizes_w :
    (resolveEach exW 1 ⟨none, none⟩ [2, 6] exS0 =
        some (⟨(), exHeap, fun _ => none, fun _ => [],
          upd (upd (fun _ => 0) 2 1) 6 1⟩,
          .ok [.num 5, .promise (.num 9)]) ∧
      [Value.num 5, Value.promise (.num 9)][0]? = some (.num 5) ∧
      isPending (.num 5) = false) ∧
    (resolveList exW 1 [2, 6] ⟨none, none⟩ exS0 =
        some (⟨(), exHeap, fun _ => none, fun _ => [],
          upd (upd (fun _ => 0) 2 1) 6 1⟩,
          .ok (if [Value.num 5, Value.promise (.num 9)].any isPending then
            .pend ([Value.num 5, Value.promise (.num 9)].map settle)
          else .sync [Value.num 5, Value.promise (.num 9)])) ∧
      ([Value.num 5, Value.promise (.num 9)] : List Value).length =
        ([2, 6] : List Nat).length ∧
      ([Value.num 5, Value.promise (.num 9)].map settle)[0]? =
        some (.num 5) ∧
      resolveMap exW 1 [("a", 2), ("b", 6)] ⟨none, none⟩ exS0 =
        some (⟨(), exHeap, fun _ => none, fun _ => [],
          upd (upd (fun _ => 0) 2 1) 6 1⟩,
          .ok (if [("a", Value.num 5), ("b", Value.promise (.num 9))].any
              (fun e => isPending e.2) then
            .pend ([("a", Value.num 5),
              ("b", Value.promise (.num 9))].map
                (fun e => (e.1, settle e.2)))
          else .sync [("a", Value.num 5),
            ("b", Value.promise (.num 9))])) ∧
      [("a", Value.num 5), ("b", Value.promise (.num 9))].map Prod.fst =
        ([("a", 2), ("b", 6)] : List (String × Nat)).map Prod.fst) :=
  ⟨⟨rfl, rfl, rfl⟩, bulk_resolution_normalizes exW 1 ⟨none, none⟩ [2, 6]
    [("a", 2), ("b", 6)] exS0 exS0
    ⟨(), exHeap, fun _ => none, fun _ => [],
      upd (upd (fun _ => 0) 2 1) 6 1⟩
    ⟨(), exHeap, fun _ => none, fun _ => [],
      upd (upd (fun _ => 0) 2 1) 6 1⟩
    [.num 5, .promise (.num 9)]
    [("a", .num 5), ("b", .promise (.num 9))] 0 (.num 5)
    rfl rfl rfl rfl⟩

/-- C2: for every provider whose original (lifetime-path) resolution
settles to an associative value and every partial mock registered for it,
the call yields the shallow merge of the original resolution with the
mock resolution: mock fields win on key collision and original-only
fields are preserved, and the merged result is pending exactly when at
least one of the two candidates is pending (it then settles, via
`Promise.all`, to the merged object after both candidates settle). -/
theorem part_mock_merge {σ : Type} (W : List (PDef σ)) (pid mid : Nat)
    (d : PDef σ) (R : Mocks) (ctx : Ctx) (s s1 s2 : MState σ)
    (fuel : Nat) (a b : Value) (i : Nat) (otgt osrc : Obj) (k : String)
    (hW : W[pid]? = some d)
    (hm : ctx.mocks = some R)
    (hR : R.get pid = some ⟨true, mid⟩)
    (h1 : lifetimeResolve d pid ctx s = (s1, .ok a))
    (h2 : callProvider W fuel mid ctx s1 = some (s2, .ok b))
    (ha : settle a = .ref i)
    (hi : i < s2.heap.length)
    (hot : s2.heap.getD i [] = otgt)
    (hos : fieldsOf s2 (settle b) = osrc)
    (hn : (osrc.map Prod.fst).Nodup) :
    stepResult W (fuel+1) pid ctx s =
      some (.ok (if isPending a || isPending b then .promise (.ref i)
        else .ref i)) ∧
    isPending (if isPending a || isPending b then .promise (.ref i)
      else .ref i) = (isPending a || isPending b) ∧
    (stepState W (fuel+1) pid ctx s).heap[i]? =
      some (assignFields otgt osrc) ∧
    getField (assignFields otgt osrc) k =
      (getField osrc k).or (getField otgt k) := by
  have hcmk : ctxMock ctx pid = some ⟨true, mid⟩ := by
    simp [ctxMock, hm, hR]
  have e0 : callProvider W (fuel+1) pid ctx s =
      some ({ s2 with heap := s2.heap.set i (assignFields (s2.heap.getD i [])
          (fieldsOf s2 (settle b))) },
        .ok (if isPending a || isPending b then .promise (.ref i)
          else .ref i)) := by
    simp [callProvider, hW, hcmk, h1, h2, mergePart_spec s2 a b i ha]
  refine ⟨stepResult_eq W (fuel+1) pid ctx s e0, ?_, ?_, ?_⟩
  · by_cases hp : (isPending a || isPending b) = true
    · rw [if_pos hp, hp]
      rfl
    · have hp' : (isPending a || isPending b) = false := by
        revert hp
        cases isPending a <;> cases isPending b <;> simp
      rw [if_neg hp, hp']
      rfl
  · rw [stepState_eq W (fuel+1) pid ctx s e0]
    show (s2.heap.set i (assignFields (s2.heap.getD i [])
      (fieldsOf s2 (settle b))))[i]? = some (assignFields otgt osrc)
    rw [hot, hos]
    exact List.getElem?_set_self hi
  · exact getField_assignFields otgt osrc k hn

/-- Witness for C2: singleton provider 0 resolves `{a: 1, b: 2}` at heap
address 0, partial mock 1 resolves `{b: 99}`; the merge yields `{a: 1,
b: 99}` synchronously. -/
theorem part_mock_merge_w :
    (exRpart.get 0 = some ⟨true, 1⟩ ∧
      lifetimeResolve ⟨.singleton, fun e h => (e, h, .ok (.ref 0))⟩ 0
        ⟨none, some exRpart⟩ exS0 =
        (⟨(), exHeap, upd (fun _ => none) 0 (some (.ref 0)),
          fun _ => [], upd (fun _ => 0) 0 1⟩, .ok (.ref 0)) ∧
      ([("b", Value.num 99)].map Prod.fst).Nodup) ∧
    (stepResult exW 2 0 ⟨none, some exRpart⟩ exS0 =
      some (.ok (if isPending (.ref 0) || isPending (.ref 1) then
        .promise (.ref 0) else .ref 0)) ∧
    isPending (if isPending (.ref 0) || isPending (.ref 1) then
      .promise (.ref 0) else .ref 0) =
      (isPending (.ref 0) || isPending (.ref 1)) ∧
    (stepState exW 2 0 ⟨none, some exRpart⟩ exS0).heap[0]? =
      some (assignFields [("a", .num 1), ("b", .num 2)]
        [("b", .num 99)]) ∧
    getField (assignFields [("a", .num 1), ("b", .num 2)]
        [("b", .num 99)]) "a" =
      (getField [("b", Value.num 99)] "a").or
        (getField [("a", .num 1), ("b", .num 2)] "a")) :=
  ⟨⟨rfl, rfl, by decide⟩, part_mock_merge exW 0 1
    ⟨.singleton, fun e h => (e, h, .ok (.ref 0))⟩ exRpart
    ⟨none, some exRpart⟩ exS0
    ⟨(), exHeap, upd (fun _ => none) 0 (some (.ref 0)),
      fun _ => [], upd (fun _ => 0) 0 1⟩
    ⟨(), exHeap, upd (fun _ => none) 0 (some (.ref 0)),
      fun _ => [], upd (upd (fun _ => 0) 0 1) 1 1⟩
    1 (.ref 0) (.ref 1) 0 [("a", .num 1), ("b", .num 2)]
    [("b", .num 99)] "a"
    rfl rfl rfl rfl rfl rfl (by decide) rfl rfl (by decide)⟩

/-- C10: the partial-mock merge never allocates a fresh object.
First, for every partial-mock resolution of any provider — synchronous or
(entrywise) asynchronous — the merged value is the original resolution
object itself: it settles to the very reference the original candidate
settles to, the heap keeps its length, and the referenced object is
mutated in place by copying the mock's fields onto it.  Consequently,
when the original provider is a singleton whose cell already holds an
object, the cached instance is permanently modified and a later mock-free
call returns the same reference with the mocked fields visible, touching
nothing; and when it is a scoped provider whose scope already holds an
object, the instance cached in the scope is permanently modified and a
later mock-free call with that scope returns the same reference with the
mocked fields visible, touching nothing. -/
theorem part_mock_mutates_cache {σ : Type} (W : List (PDef σ))
    (pid mid : Nat) (d : PDef σ) (R : Mocks) (ctx : Ctx)
    (s s1 s2 : MState σ) (fuel : Nat) (a b : Value) (i : Nat) (otgt : Obj)
    (pidB midB : Nat) (dB : PDef σ) (RB : Mocks) (ctxB ctx2B : Ctx)
    (sB sB2 : MState σ) (fuelB fuel2B : Nat) (bB : Value) (iB : Nat)
    (otgtB : Obj)
    (qid midQ : Nat) (dQ : PDef σ) (RQ : Mocks) (ctxQ ctx2Q : Ctx)
    (sQ sQ2 : MState σ) (fuelQ fuel2Q : Nat) (bQ : Value) (j sid : Nat)
    (otgtQ : Obj)
    (hW : W[pid]? = some d)
    (hm : ctx.mocks = some R)
    (hR : R.get pid = some ⟨true, mid⟩)
    (h1 : lifetimeResolve d pid ctx s = (s1, .ok a))
    (h2 : callProvider W fuel mid ctx s1 = some (s2, .ok b))
    (ha : settle a = .ref i)
    (hi : i < s2.heap.length)
    (hot : s2.heap.getD i [] = otgt)
    (hWB : W[pidB]? = some dB)
    (hltB : dB.lifetime = .singleton)
    (hmB : ctxB.mocks = some RB)
    (hRB : RB.get pidB = some ⟨true, midB⟩)
    (hmemoB : sB.memo pidB = some (.ref iB))
    (h2B : callProvider W fuelB midB ctxB sB = some (sB2, .ok bB))
    (hnbB : isPending bB = false)
    (hmemoB2 : sB2.memo pidB = some (.ref iB))
    (hiB : iB < sB2.heap.length)
    (hotB : sB2.heap.getD iB [] = otgtB)
    (hm2B : ctx2B.mocks = none)
    (hWQ : W[qid]? = some dQ)
    (hltQ : dQ.lifetime = .scoped)
    (hmQ : ctxQ.mocks = some RQ)
    (hRQ : RQ.get qid = some ⟨true, midQ⟩)
    (hsQ : ctxQ.scope = some sid)
    (hscQ : scopeGet (sQ.scopes sid) qid = some (.ref j))
    (h2Q : callProvider W fuelQ midQ ctxQ sQ = some (sQ2, .ok bQ))
    (hnbQ : isPending bQ = false)
    (hscQ2 : scopeGet (sQ2.scopes sid) qid = some (.ref j))
    (hiQ : j < sQ2.heap.length)
    (hotQ : sQ2.heap.getD j [] = otgtQ)
    (hm2Q : ctx2Q.mocks = none)
    (hs2Q : ctx2Q.scope = some sid) :
    (stepResult W (fuel+1) pid ctx s =
        some (.ok (if isPending a || isPending b then .promise (.ref i)
          else .ref i)) ∧
      settle (if isPending a || isPending b then .promise (.ref i)
        else .ref i) = .ref i ∧
      (stepState W (fuel+1) pid ctx s).heap.length = s2.heap.length ∧
      (stepState W (fuel+1) pid ctx s).heap[i]? =
        some (assignFields otgt (fieldsOf s2 (settle b)))) ∧
    (stepResult W (fuelB+1) pidB ctxB sB = some (.ok (.ref iB)) ∧
      (stepState W (fuelB+1) pidB ctxB sB).heap.length =
        sB2.heap.length ∧
      (stepState W (fuelB+1) pidB ctxB sB).heap[iB]? =
        some (assignFields otgtB (fieldsOf sB2 bB)) ∧
      stepResult W (fuel2B+1) pidB ctx2B
        (stepState W (fuelB+1) pidB ctxB sB) = some (.ok (.ref iB)) ∧
      stepState W (fuel2B+1) pidB ctx2B
        (stepState W (fuelB+1) pidB ctxB sB) =
        stepState W (fuelB+1) pidB ctxB sB) ∧
    (stepResult W (fuelQ+1) qid ctxQ sQ = some (.ok (.ref j)) ∧
      (stepState W (fuelQ+1) qid ctxQ sQ).heap.length =
        sQ2.heap.length ∧
      (stepState W (fuelQ+1) qid ctxQ sQ).heap[j]? =
        some (assignFields otgtQ (fieldsOf sQ2 bQ)) ∧
      stepResult W (fuel2Q+1) qid ctx2Q
        (stepState W (fuelQ+1) qid ctxQ sQ) = some (.ok (.ref j)) ∧
      stepState W (fuel2Q+1) qid ctx2Q
        (stepState W (fuelQ+1) qid ctxQ sQ) =
        stepState W (fuelQ+1) qid ctxQ sQ) := by
  refine ⟨?_, ?_, ?_⟩
  · have hcmk : ctxMock ctx pid = some ⟨true, mid⟩ := by
      simp [ctxMock, hm, hR]
    have e0 : callProvider W (fuel+1) pid ctx s =
        some ({ s2 with heap := s2.heap.set i (assignFields
            (s2.heap.getD i []) (fieldsOf s2 (settle b))) },
          .ok (if isPending a || isPending b then .promise (.ref i)
            else .ref i)) := by
      simp [callProvider, hW, hcmk, h1, h2, mergePart_spec s2 a b i ha]
    refine ⟨stepResult_eq W (fuel+1) pid ctx s e0, ?_, ?_, ?_⟩
    · by_cases hp : (isPending a || isPending b) = true
      · rw [if_pos hp]
        rfl
      · rw [if_neg hp]
        rfl
    · rw [stepState_eq W (fuel+1) pid ctx s e0]
      exact List.length_set s2.heap i _
    · rw [stepState_eq W (fuel+1) pid ctx s e0]
      show (s2.heap.set i (assignFields (s2.heap.getD i [])
        (fieldsOf s2 (settle b))))[i]? =
        some (assignFields otgt (fieldsOf s2 (settle b)))
      rw [hot]
      exact List.getElem?_set_self hi
  · have hcmkB : ctxMock ctxB pidB = some ⟨true, midB⟩ := by
      simp [ctxMock, hmB, hRB]
    have hl1B : lifetimeResolve dB pidB ctxB sB = (sB, .ok (.ref iB)) := by
      simp [lifetimeResolve, hltB, memoResolve, hmemoB]
    have e0B : callProvider W (fuelB+1) pidB ctxB sB =
        some ({ sB2 with heap := sB2.heap.set iB (assignFields
            (sB2.heap.getD iB []) (fieldsOf sB2 bB)) },
          .ok (.ref iB)) := by
      simp [callProvider, hWB, hcmkB, hl1B, h2B,
        mergePart_spec_sync sB2 bB iB hnbB]
    have hssB := stepState_eq W (fuelB+1) pidB ctxB sB e0B
    have hmemoB3 : (stepState W (fuelB+1) pidB ctxB sB).memo pidB =
        some (.ref iB) := by
      rw [hssB]
      exact hmemoB2
    have hcm2B : ctxMock ctx2B pidB = none := by simp [ctxMock, hm2B]
    have e2B : callProvider W (fuel2B+1) pidB ctx2B
        (stepState W (fuelB+1) pidB ctxB sB) =
        some (memoResolve dB pidB (stepState W (fuelB+1) pidB ctxB sB)) :=
      callProvider_memo_path W pidB dB ctx2B fuel2B
        (stepState W (fuelB+1) pidB ctxB sB) hWB hcm2B
        (by simp [lifetimeResolve, hltB])
    have hmrB : memoResolve dB pidB (stepState W (fuelB+1) pidB ctxB sB) =
        ((stepState W (fuelB+1) pidB ctxB sB), .ok (.ref iB)) := by
      rw [memoResolve, hmemoB3]
    rw [hmrB] at e2B
    refine ⟨stepResult_eq W (fuelB+1) pidB ctxB sB e0B, ?_, ?_,
      stepResult_eq W (fuel2B+1) pidB ctx2B
        (stepState W (fuelB+1) pidB ctxB sB) e2B,
      stepState_eq W (fuel2B+1) pidB ctx2B
        (stepState W (fuelB+1) pidB ctxB sB) e2B⟩
    · rw [hssB]
      exact List.length_set sB2.heap iB _
    · rw [hssB]
      show (sB2.heap.set iB (assignFields (sB2.heap.getD iB [])
        (fieldsOf sB2 bB)))[iB]? =
        some (assignFields otgtB (fieldsOf sB2 bB))
      rw [hotB]
      exact List.getElem?_set_self hiB
  · have hcmkQ : ctxMock ctxQ qid = some ⟨true, midQ⟩ := by
      simp [ctxMock, hmQ, hRQ]
    have hl1Q : lifetimeResolve dQ qid ctxQ sQ = (sQ, .ok (.ref j)) :=
      lifetimeResolve_scoped_hit dQ qid ctxQ sQ sid (.ref j) hltQ hsQ hscQ
    have e0Q : callProvider W (fuelQ+1) qid ctxQ sQ =
        some ({ sQ2 with heap := sQ2.heap.set j (assignFields
            (sQ2.heap.getD j []) (fieldsOf sQ2 bQ)) },
          .ok (.ref j)) := by
      simp [callProvider, hWQ, hcmkQ, hl1Q, h2Q,
        mergePart_spec_sync sQ2 bQ j hnbQ]
    have hssQ := stepState_eq W (fuelQ+1) qid ctxQ sQ e0Q
    have hscS3 : scopeGet ((stepState W (fuelQ+1) qid ctxQ sQ).scopes sid)
        qid = some (.ref j) := by
      rw [hssQ]
      exact hscQ2
    have hcm2Q : ctxMock ctx2Q qid = none := by simp [ctxMock, hm2Q]
    have hl2Q : lifetimeResolve dQ qid ctx2Q
        (stepState W (fuelQ+1) qid ctxQ sQ) =
        ((stepState W (fuelQ+1) qid ctxQ sQ), .ok (.ref j)) :=
      lifetimeResolve_scoped_hit dQ qid ctx2Q
        (stepState W (fuelQ+1) qid ctxQ sQ) sid (.ref j) hltQ hs2Q hscS3
    have e2Q : callProvider W (fuel2Q+1) qid ctx2Q
        (stepState W (fuelQ+1) qid ctxQ sQ) =
        some ((stepState W (fuelQ+1) qid ctxQ sQ), .ok (.ref j)) := by
      simp [callProvider, hWQ, hcm2Q, hl2Q]
    refine ⟨stepResult_eq W (fuelQ+1) qid ctxQ sQ e0Q, ?_, ?_,
      stepResult_eq W (fuel2Q+1) qid ctx2Q
        (stepState W (fuelQ+1) qid ctxQ sQ) e2Q,
      stepState_eq W (fuel2Q+1) qid ctx2Q
        (stepState W (fuelQ+1) qid ctxQ sQ) e2Q⟩
    · rw [hssQ]
      exact List.length_set sQ2.heap j _
    · rw [hssQ]
      show (sQ2.heap.set j (assignFields (sQ2.heap.getD j [])
        (fieldsOf sQ2 bQ)))[j]? =
        some (assignFields otgtQ (fieldsOf sQ2 bQ))
      rw [hotQ]
      exact List.getElem?_set_self hiQ

/-- Witness for C10, exercising all three legs: provider 0 partially
mocked by the pending provider 8 (the merged pending value settles to the
cached reference, mutated in place); singleton provider 0 with cached
`{a: 1, b: 2}` partially mocked by provider 1 (`{b: 99}`), with the later
mock-free call observing it; and scoped provider 4, whose scope 0 holds
the object at address 0, partially mocked by provider 1, with the later
mock-free scoped call observing it. -/
theorem part_mock_mutates_cache_w :
    (exRpartAsync.get 0 = some ⟨true, 8⟩ ∧
      exSCached.memo 0 = some (.ref 0) ∧
      scopeGet (exSScoped.scopes 0) 4 = some (.ref 0)) ∧
    ((stepResult exW 2 0 ⟨none, some exRpartAsync⟩ exS0 =
        some (.ok (if isPending (.ref 0) ||
            isPending (.promise (.ref 1)) then
          .promise (.ref 0) else .ref 0)) ∧
      settle (if isPending (.ref 0) || isPending (.promise (.ref 1)) then
        Value.promise (.ref 0) else .ref 0) = .ref 0 ∧
      (stepState exW 2 0 ⟨none, some exRpartAsync⟩ exS0).heap.length =
        exHeap.length ∧
      (stepState exW 2 0 ⟨none, some exRpartAsync⟩ exS0).heap[0]? =
        some (assignFields [("a", .num 1), ("b", .num 2)]
          (fieldsOf (⟨(), exHeap,
            upd (fun _ => none) 0 (some (.ref 0)), fun _ => [],
            upd (upd (fun _ => 0) 0 1) 8 1⟩ : MState Unit)
            (settle (.promise (.ref 1)))))) ∧
    (stepResult exW 2 0 ⟨none, some exRpart⟩ exSCached =
        some (.ok (.ref 0)) ∧
      (stepState exW 2 0 ⟨none, some exRpart⟩ exSCached).heap.length =
        exHeap.length ∧
      (stepState exW 2 0 ⟨none, some exRpart⟩ exSCached).heap[0]? =
        some (assignFields [("a", .num 1), ("b", .num 2)]
          (fieldsOf (⟨(), exHeap,
            (fun jj => if jj = 0 then some (.ref 0) else none),
            fun _ => [], upd (fun _ => 0) 1 1⟩ : MState Unit)
            (.ref 1))) ∧
      stepResult exW 1 0 ⟨none, none⟩
        (stepState exW 2 0 ⟨none, some exRpart⟩ exSCached) =
        some (.ok (.ref 0)) ∧
      stepState exW 1 0 ⟨none, none⟩
        (stepState exW 2 0 ⟨none, some exRpart⟩ exSCached) =
        stepState exW 2 0 ⟨none, some exRpart⟩ exSCached) ∧
    (stepResult exW 2 4 ⟨some 0, some exRpartScoped⟩ exSScoped =
        some (.ok (.ref 0)) ∧
      (stepState exW 2 4 ⟨some 0, some exRpartScoped⟩
        exSScoped).heap.length = exHeap.length ∧
      (stepState exW 2 4 ⟨some 0, some exRpartScoped⟩
        exSScoped).heap[0]? =
        some (assignFields [("a", .num 1), ("b", .num 2)]
          (fieldsOf (⟨(), exHeap, fun _ => none,
            (fun sidx => if sidx = 0 then [(4, Value.ref 0)] else []),
            upd (fun _ => 0) 1 1⟩ : MState Unit)
            (.ref 1))) ∧
      stepResult exW 1 4 ⟨some 0, none⟩
        (stepState exW 2 4 ⟨some 0, some exRpartScoped⟩ exSScoped) =
        some (.ok (.ref 0)) ∧
      stepState exW 1 4 ⟨some 0, none⟩
        (stepState exW 2 4 ⟨some 0, some exRpartScoped⟩ exSScoped) =
        stepState exW 2 4 ⟨some 0, some exRpartScoped⟩ exSScoped)) :=
  ⟨⟨rfl, rfl, rfl⟩, part_mock_mutates_cache exW 0 8
    ⟨.singleton, fun e h => (e, h, .ok (.ref 0))⟩ exRpartAsync
    ⟨none, some exRpartAsync⟩ exS0
    ⟨(), exHeap, upd (fun _ => none) 0 (some (.ref 0)), fun _ => [],
      upd (fun _ => 0) 0 1⟩
    ⟨(), exHeap, upd (fun _ => none) 0 (some (.ref 0)), fun _ => [],
      upd (upd (fun _ => 0) 0 1) 8 1⟩
    1 (.ref 0) (.promise (.ref 1)) 0 [("a", .num 1), ("b", .num 2)]
    0 1 ⟨.singleton, fun e h => (e, h, .ok (.ref 0))⟩ exRpart
    ⟨none, some exRpart⟩ ⟨none, none⟩ exSCached
    ⟨(), exHeap, (fun jj => if jj = 0 then some (.ref 0) else none),
      fun _ => [], upd (fun _ => 0) 1 1⟩
    1 0 (.ref 1) 0 [("a", .num 1), ("b", .num 2)]
    4 1 ⟨.scoped, fun e h => (e, h, .ok (.num 7))⟩ exRpartScoped
    ⟨some 0, some exRpartScoped⟩ ⟨some 0, none⟩ exSScoped
    ⟨(), exHeap, fun _ => none,
      (fun sidx => if sidx = 0 then [(4, Value.ref 0)] else []),
      upd (fun _ => 0) 1 1⟩
    1 0 (.ref 1) 0 0 [("a", .num 1), ("b", .num 2)]
    rfl rfl rfl rfl rfl rfl (by decide) rfl
    rfl rfl rfl rfl rfl rfl rfl rfl (by decide) rfl rfl
    rfl rfl rfl rfl rfl rfl rfl rfl rfl (by decide) rfl rfl rfl⟩

/-- C4: for every scoped provider and scope (mock-free): the first
successful resolution in a scope runs the body once and stores the value
under the provider's key in that scope, leaving other scopes untouched; a
second call with the same scope returns the identical value without
running the body; and a subsequent call with a different scope that has no
entry runs the body again (one resolver run per distinct scope). -/
theorem scoped_caches_per_scope {σ : Type} (W : List (PDef σ))
    (pid : Nat) (d : PDef σ) (fuel1 fuel2 fuel3 : Nat) (ctx ctx2 : Ctx)
    (s : MState σ) (sid sid2 : Nat) (v : Value)
    (hW : W[pid]? = some d)
    (hlt : d.lifetime = .scoped)
    (hm : ctx.mocks = none)
    (hs : ctx.scope = some sid)
    (hm2 : ctx2.mocks = none)
    (hs2 : ctx2.scope = some sid2)
    (hne : ¬ sid2 = sid)
    (hmiss : scopeGet (s.scopes sid) pid = none)
    (hmiss2 : scopeGet (s.scopes sid2) pid = none)
    (h1 : stepResult W (fuel1+1) pid ctx s = some (.ok v)) :
    (stepState W (fuel1+1) pid ctx s).calls pid = s.calls pid + 1 ∧
    scopeGet ((stepState W (fuel1+1) pid ctx s).scopes sid) pid = some v ∧
    (stepState W (fuel1+1) pid ctx s).scopes sid2 = s.scopes sid2 ∧
    stepResult W (fuel2+1) pid ctx (stepState W (fuel1+1) pid ctx s) =
      some (.ok v) ∧
    (stepState W (fuel2+1) pid ctx
      (stepState W (fuel1+1) pid ctx s)).calls pid =
      (stepState W (fuel1+1) pid ctx s).calls pid ∧
    callsAfter W (fuel3+1) pid ctx2 (stepState W (fuel1+1) pid ctx s) pid =
      (stepState W (fuel1+1) pid ctx s).calls pid + 1 := by
  have hcm : ctxMock ctx pid = none := by simp [ctxMock, hm]
  have hcm2 : ctxMock ctx2 pid = none := by simp [ctxMock, hm2]
  rcases hr : invoke d pid s with ⟨t, r⟩
  cases r with
  | error e =>
    exfalso
    have e1 : callProvider W (fuel1+1) pid ctx s = some (t, .error e) := by
      simp [callProvider, hW, hcm, lifetimeResolve, hlt, hs, hmiss, hr]
    unfold stepResult at h1
    rw [e1] at h1
    simp at h1
  | ok w =>
    have e1 : callProvider W (fuel1+1) pid ctx s =
        some ({ t with
          scopes := upd t.scopes sid (scopeSet (t.scopes sid) pid w) },
          .ok w) := by
      simp [callProvider, hW, hcm, lifetimeResolve, hlt, hs, hmiss, hr]
    have hv : w = v := by
      unfold stepResult at h1
      rw [e1] at h1
      simpa using h1
    rw [hv] at e1 hr
    have hss : stepState W (fuel1+1) pid ctx s =
        { t with
          scopes := upd t.scopes sid (scopeSet (t.scopes sid) pid v) } :=
      stepState_eq W (fuel1+1) pid ctx s e1
    have htc : t.calls pid = s.calls pid + 1 := by
      have hx := invoke_calls_self d pid s
      rw [hr] at hx
      exact hx
    have hts : t.scopes = s.scopes := by
      have hx := invoke_scopes d pid s
      rw [hr] at hx
      exact hx
    have hget : scopeGet ((stepState W (fuel1+1) pid ctx s).scopes sid)
        pid = some v := by
      rw [hss]
      simp [upd, scopeGet_scopeSet_self]
    have hother : (stepState W (fuel1+1) pid ctx s).scopes sid2 =
        s.scopes sid2 := by
      rw [hss]
      simp [upd, hne, hts]
    have e2 : callProvider W (fuel2+1) pid ctx
        (stepState W (fuel1+1) pid ctx s) =
        some ({ (stepState W (fuel1+1) pid ctx s) with
          scopes := upd (stepState W (fuel1+1) pid ctx s).scopes sid
            (scopeSet ((stepState W (fuel1+1) pid ctx s).scopes sid)
              pid v) }, .ok v) := by
      simp [callProvider, hW, hcm, lifetimeResolve, hlt, hs, hget]
    refine ⟨?_, hget, hother, ?_, ?_, ?_⟩
    · rw [hss]
      exact htc
    · exact stepResult_eq W (fuel2+1) pid ctx
        (stepState W (fuel1+1) pid ctx s) e2
    · rw [stepState_eq W (fuel2+1) pid ctx
        (stepState W (fuel1+1) pid ctx s) e2]
    · have hmiss3 : scopeGet ((stepState W (fuel1+1) pid ctx s).scopes
          sid2) pid = none := by
        rw [hother]
        exact hmiss2
      rcases hr3 : invoke d pid (stepState W (fuel1+1) pid ctx s) with
        ⟨t3, r3⟩
      have ht3 : t3.calls pid =
          (stepState W (fuel1+1) pid ctx s).calls pid + 1 := by
        have hx := invoke_calls_self d pid (stepState W (fuel1+1) pid ctx s)
        rw [hr3] at hx
        exact hx
      cases r3 with
      | error e =>
        have e3 : callProvider W (fuel3+1) pid ctx2
            (stepState W (fuel1+1) pid ctx s) = some (t3, .error e) := by
          simp [callProvider, hW, hcm2, lifetimeResolve, hlt, hs2, hmiss3,
            hr3]
        unfold callsAfter
        rw [stepState_eq W (fuel3+1) pid ctx2
          (stepState W (fuel1+1) pid ctx s) e3]
        exact ht3
      | ok w3 =>
        have e3 : callProvider W (fuel3+1) pid ctx2
            (stepState W (fuel1+1) pid ctx s) =
            some ({ t3 with
              scopes := upd t3.scopes sid2
                (scopeSet (t3.scopes sid2) pid w3) }, .ok w3) := by
          simp [callProvider, hW, hcm2, lifetimeResolve, hlt, hs2, hmiss3,
            hr3]
        unfold callsAfter
        rw [stepState_eq W (fuel3+1) pid ctx2
          (stepState W (fuel1+1) pid ctx s) e3]
        exact ht3

/-- Witness for C4 at scoped provider 4 under scopes 0 and 1. -/
theorem scoped_caches_per_scope_w :
    (scopeGet (exS0.scopes 0) 4 = none ∧
      scopeGet (exS0.scopes 1) 4 = none ∧
      stepResult exW 1 4 ⟨some 0, none⟩ exS0 = some (.ok (.num 7))) ∧
    ((stepState exW 1 4 ⟨some 0, none⟩ exS0).calls 4 = exS0.calls 4 + 1 ∧
      scopeGet ((stepState exW 1 4 ⟨some 0, none⟩ exS0).scopes 0) 4 =
        some (.num 7) ∧
      (stepState exW 1 4 ⟨some 0, none⟩ exS0).scopes 1 = exS0.scopes 1 ∧
      stepResult exW 1 4 ⟨some 0, none⟩
        (stepState exW 1 4 ⟨some 0, none⟩ exS0) = some (.ok (.num 7)) ∧
      (stepState exW 1 4 ⟨some 0, none⟩
        (stepState exW 1 4 ⟨some 0, none⟩ exS0)).calls 4 =
        (stepState exW 1 4 ⟨some 0, none⟩ exS0).calls 4 ∧
      callsAfter exW 1 4 ⟨some 1, none⟩
        (stepState exW 1 4 ⟨some 0, none⟩ exS0) 4 =
        (stepState exW 1 4 ⟨some 0, none⟩ exS0).calls 4 + 1) :=
  ⟨⟨rfl, rfl, rfl⟩, scoped_caches_per_scope exW 4
    ⟨.scoped, fun e h => (e, h, .ok (.num 7))⟩ 0 0 0
    ⟨some 0, none⟩ ⟨some 1, none⟩ exS0 0 1 (.num 7)
    rfl rfl rfl rfl rfl rfl (by decide) rfl rfl rfl⟩

/-- C9: when a singleton (resp. scoped, resolving in a scope) provider's
resolver throws, the error propagates to the caller uncaught, the memo
cell (resp. the scope) is unchanged by the failed attempt — the
`resolved` flag is set only after the body returns, and the scope write
is skipped — and the next invocation runs the resolver body again. -/
theorem resolver_failure_not_cached {σ : Type} (W : List (PDef σ))
    (pid qid : Nat) (d dq : PDef σ) (fuel1 fuel2 fuel3 fuel4 : Nat)
    (ctx ctx2 : Ctx) (s : MState σ) (sid : Nat) (ev evq : Value)
    (hW : W[pid]? = some d)
    (hlt : d.lifetime = .singleton)
    (hWq : W[qid]? = some dq)
    (hltq : dq.lifetime = .scoped)
    (hm : ctx.mocks = none)
    (hm2 : ctx2.mocks = none)
    (hs2 : ctx2.scope = some sid)
    (hmemo : s.memo pid = none)
    (hmiss : scopeGet (s.scopes sid) qid = none)
    (hthrow : (invoke d pid s).2 = .error ev)
    (hthrowq : (invoke dq qid s).2 = .error evq) :
    (stepResult W (fuel1+1) pid ctx s = some (.error ev) ∧
      (stepState W (fuel1+1) pid ctx s).memo pid = none ∧
      (stepState W (fuel1+1) pid ctx s).calls pid = s.calls pid + 1 ∧
      callsAfter W (fuel2+1) pid ctx (stepState W (fuel1+1) pid ctx s)
        pid = (stepState W (fuel1+1) pid ctx s).calls pid + 1) ∧
    (stepResult W (fuel3+1) qid ctx2 s = some (.error evq) ∧
      scopeGet ((stepState W (fuel3+1) qid ctx2 s).scopes sid) qid =
        none ∧
      (stepState W (fuel3+1) qid ctx2 s).calls qid = s.calls qid + 1 ∧
      callsAfter W (fuel4+1) qid ctx2 (stepState W (fuel3+1) qid ctx2 s)
        qid = (stepState W (fuel3+1) qid ctx2 s).calls qid + 1) := by
  have hcm : ctxMock ctx pid = none := by simp [ctxMock, hm]
  have hcm2 : ctxMock ctx2 qid = none := by simp [ctxMock, hm2]
  constructor
  · rcases hr : invoke d pid s with ⟨t, r⟩
    rw [hr] at hthrow
    have hrr : r = .error ev := hthrow
    rw [hrr] at hr
    have e1 : callProvider W (fuel1+1) pid ctx s = some (t, .error ev) := by
      simp [callProvider, hW, hcm, lifetimeResolve, hlt, memoResolve,
        hmemo, hr]
    have hss := stepState_eq W (fuel1+1) pid ctx s e1
    have htm : t.memo = s.memo := by
      have hx := invoke_memo d pid s
      rw [hr] at hx
      exact hx
    have htc : t.calls pid = s.calls pid + 1 := by
      have hx := invoke_calls_self d pid s
      rw [hr] at hx
      exact hx
    have hmemo2 : (stepState W (fuel1+1) pid ctx s).memo pid = none := by
      rw [hss]
      show t.memo pid = none
      rw [htm]
      exact hmemo
    refine ⟨stepResult_eq W (fuel1+1) pid ctx s e1, hmemo2, ?_, ?_⟩
    · rw [hss]
      exact htc
    · rcases hr2 : invoke d pid (stepState W (fuel1+1) pid ctx s) with
        ⟨t2, r2⟩
      have ht2 : t2.calls pid =
          (stepState W (fuel1+1) pid ctx s).calls pid + 1 := by
        have hx := invoke_calls_self d pid (stepState W (fuel1+1) pid ctx s)
        rw [hr2] at hx
        exact hx
      cases r2 with
      | error e2 =>
        have e3 : callProvider W (fuel2+1) pid ctx
            (stepState W (fuel1+1) pid ctx s) = some (t2, .error e2) := by
          simp [callProvider, hW, hcm, lifetimeResolve, hlt, memoResolve,
            hmemo2, hr2]
        unfold callsAfter
        rw [stepState_eq W (fuel2+1) pid ctx
          (stepState W (fuel1+1) pid ctx s) e3]
        exact ht2
      | ok w2 =>
        have e3 : callProvider W (fuel2+1) pid ctx
            (stepState W (fuel1+1) pid ctx s) =
            some ({ t2 with memo := upd t2.memo pid (some w2) },
              .ok w2) := by
          simp [callProvider, hW, hcm, lifetimeResolve, hlt, memoResolve,
            hmemo2, hr2]
        unfold callsAfter
        rw [stepState_eq W (fuel2+1) pid ctx
          (stepState W (fuel1+1) pid ctx s) e3]
        exact ht2
  · rcases hr : invoke dq qid s with ⟨t, r⟩
    rw [hr] at hthrowq
    have hrr : r = .error evq := hthrowq
    rw [hrr] at hr
    have e1 : callProvider W (fuel3+1) qid ctx2 s =
        some (t, .error evq) := by
      simp [callProvider, hWq, hcm2, lifetimeResolve, hltq, hs2, hmiss, hr]
    have hss := stepState_eq W (fuel3+1) qid ctx2 s e1
    have hts : t.scopes = s.scopes := by
      have hx := invoke_scopes dq qid s
      rw [hr] at hx
      exact hx
    have htc : t.calls qid = s.calls qid + 1 := by
      have hx := invoke_calls_self dq qid s
      rw [hr] at hx
      exact hx
    have hmiss2 : scopeGet ((stepState W (fuel3+1) qid ctx2 s).scopes
        sid) qid = none := by
      rw [hss]
      show scopeGet (t.scopes sid) qid = none
      rw [hts]
      exact hmiss
    refine ⟨stepResult_eq W (fuel3+1) qid ctx2 s e1, hmiss2, ?_, ?_⟩
    · rw [hss]
      exact htc
    · rcases hr2 : invoke dq qid (stepState W (fuel3+1) qid ctx2 s) with
        ⟨t2, r2⟩
      have ht2 : t2.calls qid =
          (stepState W (fuel3+1) qid ctx2 s).calls qid + 1 := by
        have hx := invoke_calls_self dq qid
          (stepState W (fuel3+1) qid ctx2 s)
        rw [hr2] at hx
        exact hx
      cases r2 with
      | error e2 =>
        have e3 : callProvider W (fuel4+1) qid ctx2
            (stepState W (fuel3+1) qid ctx2 s) = some (t2, .error e2) := by
          simp [callProvider, hWq, hcm2, lifetimeResolve, hltq, hs2,
            hmiss2, hr2]
        unfold callsAfter
        rw [stepState_eq W (fuel4+1) qid ctx2
          (stepState W (fuel3+1) qid ctx2 s) e3]
        exact ht2
      | ok w2 =>
        have e3 : callProvider W (fuel4+1) qid ctx2
            (stepState W (fuel3+1) qid ctx2 s) =
            some ({ t2 with
              scopes := upd t2.scopes sid
                (scopeSet (t2.scopes sid) qid w2) }, .ok w2) := by
          simp [callProvider, hWq, hcm2, lifetimeResolve, hltq, hs2,
            hmiss2, hr2]
        unfold callsAfter
        rw [stepState_eq W (fuel4+1) qid ctx2
          (stepState W (fuel3+1) qid ctx2 s) e3]
        exact ht2

/-- Witness for C9: singleton provider 3 and scoped provider 5 both throw;
the error surfaces, nothing is cached, and each retry runs the body
again. -/
theorem resolver_failure_not_cached_w :
    (exS0.memo 3 = none ∧ scopeGet (exS0.scopes 0) 5 = none ∧
      (invoke ⟨.singleton, fun e h => (e, h, .error (.str "boom"))⟩ 3
        exS0).2 = .error (.str "boom")) ∧
    ((stepResult exW 1 3 ⟨none, none⟩ exS0 = some (.error (.str "boom")) ∧
      (stepState exW 1 3 ⟨none, none⟩ exS0).memo 3 = none ∧
      (stepState exW 1 3 ⟨none, none⟩ exS0).calls 3 = exS0.calls 3 + 1 ∧
      callsAfter exW 1 3 ⟨none, none⟩ (stepState exW 1 3 ⟨none, none⟩ exS0)
        3 = (stepState exW 1 3 ⟨none, none⟩ exS0).calls 3 + 1) ∧
    (stepResult exW 1 5 ⟨some 0, none⟩ exS0 = some (.error (.str "bam")) ∧
      scopeGet ((stepState exW 1 5 ⟨some 0, none⟩ exS0).scopes 0) 5 =
        none ∧
      (stepState exW 1 5 ⟨some 0, none⟩ exS0).calls 5 = exS0.calls 5 + 1 ∧
      callsAfter exW 1 5 ⟨some 0, none⟩
        (stepState exW 1 5 ⟨some 0, none⟩ exS0) 5 =
        (stepState exW 1 5 ⟨some 0, none⟩ exS0).calls 5 + 1)) :=
  ⟨⟨rfl, rfl, rfl⟩, resolver_failure_not_cached exW 3 5
    ⟨.singleton, fun e h => (e, h, .error (.str "boom"))⟩
    ⟨.scoped, fun e h => (e, h, .error (.str "bam"))⟩ 0 0 0 0
    ⟨none, none⟩ ⟨some 0, none⟩ exS0 0 (.str "boom") (.str "bam")
    rfl rfl rfl rfl rfl rfl rfl rfl rfl rfl rfl⟩

/-- Witness for C5 at scoped provider 4 called without a scope. -/
theorem scoped_without_scope_singleton_w :
    (exS0.memo 4 = none ∧
      stepResult exW 1 4 ⟨none, none⟩ exS0 = some (.ok (.num 7))) ∧
    ((stepState exW 1 4 ⟨none, none⟩ exS0).calls 4 = exS0.calls 4 + 1 ∧
      (stepState exW 1 4 ⟨none, none⟩ exS0).memo 4 = some (.num 7) ∧
      stepResult exW 1 4 ⟨none, none⟩ (stepState exW 1 4 ⟨none, none⟩ exS0) =
        some (.ok (.num 7)) ∧
      stepState exW 1 4 ⟨none, none⟩ (stepState exW 1 4 ⟨none, none⟩ exS0) =
        stepState exW 1 4 ⟨none, none⟩ exS0) :=
  ⟨⟨rfl, rfl⟩, scoped_without_scope_singleton exW 4
    ⟨.scoped, fun e h => (e, h, .ok (.num 7))⟩ 0 0
    ⟨none, none⟩ ⟨none, none⟩ exS0 (.num 7) rfl rfl rfl rfl rfl rfl rfl rfl⟩

end AtomicDi
